import Mathlib

/-!
Verification of the ymir annotation engine and sandbox migrator.

This file gives a shallow embedding, in Lean 4, of the code in
`ymir/command/mir/tools/annotations.py` and
`ymir/backend/src/common/common_utils/sandbox.py`, together with theorems
settling a list of claims about that code.

Modelling conventions:
- Python dicts (and protobuf map fields) are association lists
  `List (key × value)`; insertion replaces the first matching key in place,
  matching dict update semantics.  Python dict iteration order (insertion
  order) is preserved; Python `set` iteration order is unspecified, which the
  statements below avoid relying on (they are phrased through lookups).
- Machine floats (`score`, `anno_quality`, `rotate_angle`, `image_quality`)
  are not modelled; none of the claims depends on them.
- Fallible Python code (raising `MirRuntimeError`, `SandboxError`,
  `ValueError`, `KeyError`, `NotImplementedError`) returns `Except`.
  In-place mutating functions whose partial effects survive an exception
  (the merge and sandbox-update paths) instead return the final state of the
  mutated object together with an `Option` error.
-/

/-! ## Association-list helpers (Python dict / protobuf map model) -/

def alistLookup {κ α : Type} [DecidableEq κ] (k : κ) : List (κ × α) → Option α
  | [] => none
  | (k', v) :: rest => if k' = k then some v else alistLookup k rest

def alistInsert {κ α : Type} [DecidableEq κ] (k : κ) (v : α) : List (κ × α) → List (κ × α)
  | [] => [(k, v)]
  | (k', v') :: rest => if k' = k then (k, v) :: rest else (k', v') :: alistInsert k v rest

def alistKeys {κ α : Type} (l : List (κ × α)) : List κ := l.map (·.1)

/-- Python `accu[name] += 1` on a key already present. -/
def alistIncr {κ : Type} [DecidableEq κ] (k : κ) : List (κ × Nat) → List (κ × Nat)
  | [] => []
  | (k', v) :: rest => if k' = k then (k', v + 1) :: rest else (k', v) :: alistIncr k rest

/-! ## Core data model (protobuf messages of `mir_command_pb2`) -/

/-- `mirpb.AnnoType`; `atUnknown` is the zero (falsy) value `AT_UNKNOWN`. -/
inductive AnnoType
  | atUnknown
  | atDetBox
  | atSegPolygon
  | atSegMask
deriving DecidableEq, Repr

/-- An RGB color triple, as produced by `labelmap.txt` parsing and pixel scans. -/
abbrev Color : Type := Int × Int × Int

structure IntPoint where
  x : Int
  y : Int
  z : Int
deriving DecidableEq, Repr

/-- `mirpb.Rect`.  `rotate_angle` is a float and is not modelled. -/
structure Box where
  x : Int
  y : Int
  w : Int
  h : Int
deriving DecidableEq, Repr

/-- `mirpb.ObjectAnnotation`.  The float fields `score` and `anno_quality`
are not modelled; no claim depends on them. -/
structure ObjectAnno where
  index : Nat
  class_id : Int
  box : Box
  tags : List (String × String)
deriving DecidableEq, Repr

/-- `mirpb.MaskAnnotation`: the re-encoded PNG bytes are modelled as the
pixel grid they encode (PNG encoding is lossless). -/
structure MaskAnno where
  semantic_mask : List (List Color)
deriving DecidableEq, Repr

structure SingleImageAnnos where
  boxes : List ObjectAnno
  img_class_ids : List Int
  masks : List MaskAnno
deriving DecidableEq, Repr

def SingleImageAnnos.empty : SingleImageAnnos := ⟨[], [], []⟩

/-- Model metadata carried on a prediction set (`mirpb.ModelMeta`). -/
structure ModelMeta where
  class_names : List String
  stage_name : String
deriving DecidableEq, Repr

def ModelMeta.empty : ModelMeta := ⟨[], ""⟩

/-- `mirpb.SingleTaskAnnotations`. -/
structure SingleTaskAnnos where
  type : AnnoType
  image_annotations : List (String × SingleImageAnnos)
  task_class_ids : List Int
  eval_class_ids : List Int
  map_id_color : List (Int × IntPoint)
  executor_config : String
  model : ModelMeta
deriving DecidableEq, Repr

def SingleTaskAnnos.empty : SingleTaskAnnos :=
  ⟨.atUnknown, [], [], [], [], "", ModelMeta.empty⟩

/-- `mirpb.SingleImageCks`.  The float field `image_quality` is not
modelled; creation of the per-asset entry (which the code performs even for
an empty `cks` dict) is kept. -/
structure SingleImageCks where
  cks : List (String × String)
deriving DecidableEq, Repr

def SingleImageCks.empty : SingleImageCks := ⟨[]⟩

/-- `mirpb.MirAnnotations`. -/
structure MirAnnos where
  prediction : SingleTaskAnnos
  ground_truth : SingleTaskAnnos
  image_cks : List (String × SingleImageCks)
deriving DecidableEq, Repr

def MirAnnos.empty : MirAnnos := ⟨SingleTaskAnnos.empty, SingleTaskAnnos.empty, []⟩

/-- Error family of `MirRuntimeError` plus the raw Python exceptions that can
escape the annotation code (`ValueError` from `int()`, `KeyError` from a dict
subscript, `NotImplementedError`). -/
inductive MirErr
  | invalidArgs (msg : String)
  | notImplemented
  | unknownTypes (names : List String)
  | invalidMetaYaml
  | invalidAnnoType
  | mergeError
  | valueError
  | keyError
  | classNotFound
deriving DecidableEq, Repr

/-- `UnknownTypesStrategy` from `annotations.py`. -/
inductive UTStrategy
  | stop
  | ignore
  | add
deriving DecidableEq, Repr

/-! ## Class-id registry -/

/-- Modelled from the spec: the class-id registry (`mir.tools.class_ids`,
whose source is not among the provided files).  Spec §4.1: `resolve(name)`
returns `(id, canonical_name)` with `id = -1` for unknown names; `add(name)`
appends a new entry with the next unused id (ids are dense, never reused).
Aliases are not exercised by any claim and are not modelled: every name is
its own canonical name. -/
structure UserLabels where
  labels : List (String × Int)
deriving DecidableEq, Repr

/-- Modelled from the spec: `id_and_main_name_for_name`, `-1` for unknown. -/
def UserLabels.idAndMainNameForName (u : UserLabels) (name : String) : Int × String :=
  match alistLookup name u.labels with
  | some i => (i, name)
  | none => (-1, name)

/-- Modelled from the spec: `add_main_name` appends with the next unused id
and returns the (possibly pre-existing) id; the registry is returned as the
second component since the Python object is mutated in place. -/
def UserLabels.addMainName (u : UserLabels) (name : String) : Int × UserLabels :=
  match alistLookup name u.labels with
  | some i => (i, u)
  | none =>
    ((u.labels.length : Int), ⟨u.labels ++ [(name, (u.labels.length : Int))]⟩)

/-- Modelled from the spec: `add_main_names` adds each name in order. -/
def UserLabels.addMainNames (u : UserLabels) (names : List String) : UserLabels :=
  names.foldl (fun m n => (m.addMainName n).2) u

def UserLabels.allMainNames (u : UserLabels) : List String := u.labels.map (·.1)

/-- Modelled from the spec: `main_name_for_id`, failing for unassigned ids. -/
def UserLabels.mainNameForId (u : UserLabels) (i : Int) : Option String :=
  match u.labels.find? (fun p => p.2 = i) with
  | some p => some p.1
  | none => none

/-- Modelled from the spec: `id_for_names(names, drop_unknown_names=True)`
keeps the resolvable ids, in order. -/
def UserLabels.idForNamesDropUnknown (u : UserLabels) (names : List String) : List Int :=
  (names.map (fun n => (u.idAndMainNameForName n).1)).filter (fun i => 0 ≤ i)

/-! ## `_object_dict_to_annotation` -/

structure Bndbox where
  xmin : Int
  ymin : Int
  xmax : Int
  ymax : Int
deriving DecidableEq, Repr

/-- One `object` node of a VOC XML file, after `xmltodict` parsing and the
`int(float(...))` conversions.  `bndbox = none` models a falsy/absent
`bndbox` entry; `polygon` records whether a truthy `polygon` entry exists.
The float attributes `confidence` and `box_quality` are not modelled. -/
structure VocObject where
  name : String
  bndbox : Option Bndbox
  polygon : Bool
  tags : List (String × String)
deriving DecidableEq, Repr

/-- `_object_dict_to_annotation` (annotations.py lines 64-92).  The box is
`x = xmin`, `y = ymin`, `w = xmax - xmin + 1`, `h = ymax - ymin + 1`; a
truthy `polygon` without `bndbox` raises `NotImplementedError`, neither
raises `MirRuntimeError(RC_CMD_INVALID_ARGS)`. -/
def objectDictToAnno (o : VocObject) (cid : Int) : Except MirErr ObjectAnno :=
  match o.bndbox with
  | some b =>
    .ok { index := 0, class_id := cid,
          box := { x := b.xmin, y := b.ymin,
                   w := b.xmax - b.xmin + 1, h := b.ymax - b.ymin + 1 },
          tags := o.tags }
  | none =>
    if o.polygon then .error .notImplemented
    else .error (.invalidArgs "no value for bndbox or polygon")

/-! ## `_parse_labelmap` -/

/-- In Python, `pos_ints == (0, 0, 0)` at annotations.py line 355 compares a
`list` with a `tuple`; such a comparison is always `False` in Python,
whatever the elements are.  This function is that comparison. -/
def pyEqListTuple3 (_posInts : List Int) (_t : Int × Int × Int) : Bool := false

/-- Python `str.strip()`: drop leading and trailing whitespace. -/
def pyStrip (l : List Char) : List Char :=
  ((l.dropWhile Char.isWhitespace).reverse.dropWhile Char.isWhitespace).reverse

/-- Python `str.split(sep)` for a one-character separator. -/
def splitOnChar (sep : Char) : List Char → List (List Char)
  | [] => [[]]
  | c :: rest =>
    let r := splitOnChar sep rest
    if c = sep then [] :: r
    else
      match r with
      | hd :: tl => (c :: hd) :: tl
      | [] => [[c]]

def digitsValGo : List Char → Nat → Option Nat
  | [], acc => some acc
  | c :: rest, acc =>
    if c.isDigit then digitsValGo rest (acc * 10 + (c.toNat - 48)) else none

/-- Python `int(s)`: optional surrounding whitespace and sign, then at least
one digit (digit grouping with underscores is not modelled); anything else
raises `ValueError` (`none` here). -/
def pyIntChars (l : List Char) : Option Int :=
  match pyStrip l with
  | [] => none
  | '-' :: rest =>
    if rest.isEmpty then none else (digitsValGo rest 0).map (fun n => -(n : Int))
  | '+' :: rest =>
    if rest.isEmpty then none else (digitsValGo rest 0).map (fun n => (n : Int))
  | t => (digitsValGo t 0).map (fun n => (n : Int))

def pyIntList? : List (List Char) → Option (List Int)
  | [] => some []
  | s :: rest =>
    match pyIntChars s, pyIntList? rest with
    | some i, some l => some (i :: l)
    | _, _ => none

/-- Python `str.lower()` (ASCII case folding suffices here). -/
def pyLower (s : String) : String := ⟨s.data.map Char.toLower⟩

/-- Loop body of `_parse_labelmap` (annotations.py lines 339-359) over the
stripped lines of `labelmap.txt`. -/
def parseLabelmapLoop (mgr : UserLabels) :
    List String → List (String × Color) → Except MirErr (List (String × Color))
  | [], acc => .ok acc
  | record :: rest, acc =>
    let r := pyStrip record.data
    if ':' ∉ r then parseLabelmapLoop mgr rest acc
    else
      match splitOnChar ':' r with
      | [p0, p1, _, _] =>
        match pyIntList? (splitOnChar ',' p1) with
        | none => .error .valueError
        | some posInts0 =>
          let posInts := match posInts0 with
            | [x] => [x, x, x]
            | l => l
          match posInts with
          | [a, b, c] =>
            if pyEqListTuple3 [a, b, c] (0, 0, 0) then
              parseLabelmapLoop mgr rest acc
            else
              let cname := (mgr.idAndMainNameForName ⟨p0⟩).2
              parseLabelmapLoop mgr rest (alistInsert cname ((a, b, c) : Color) acc)
          | _ => parseLabelmapLoop mgr rest acc
      | _ => parseLabelmapLoop mgr rest acc

/-- `_parse_labelmap` (annotations.py lines 328-361) given the lines of an
existing `labelmap.txt`; a missing file is handled by the caller model. -/
def parseLabelmap (records : List String) (mgr : UserLabels) :
    Except MirErr (List (String × Color)) :=
  parseLabelmapLoop mgr records []

/-! ## `_import_annotations_voc_xml` -/

/-- One parsed VOC XML file (`xmltodict.parse(...)['annotation']`): the
optional `cks` dict and the normalized `object` list (a single object node is
already wrapped into a one-element list, mirroring lines 257-260).  The float
`image_quality` attribute is not modelled. -/
structure VocXml where
  cks : List (String × String)
  objects : List VocObject
deriving DecidableEq, Repr

/-- State threaded through the per-object loop (lines 262-283). -/
structure VocObjState where
  mgr : UserLabels
  accu : List (String × Nat)
  annoIdx : Nat
  boxes : List ObjectAnno
  imgClassIds : List Int
deriving DecidableEq, Repr

/-- Python `set.add` on a set modelled as a deduplicated list (insertion
order; Python set iteration order is unspecified and no claim relies on it). -/
def setAdd (l : List Int) (x : Int) : List Int :=
  if x ∈ l then l else l ++ [x]

def setUnionInt (a b : List Int) : List Int := b.foldl setAdd a

/-- Body of one iteration of the per-object loop of
`_import_annotations_voc_xml` (lines 264-283). -/
def vocObjStep (addIfNotFound : Bool) (o : VocObject) (st : VocObjState) :
    Except MirErr VocObjState :=
  let rc := st.mgr.idAndMainNameForName o.name
  let cid0 := rc.1
  let cname := rc.2
  let step : UserLabels × List (String × Nat) × Int :=
    if cname ∈ alistKeys st.accu then (st.mgr, alistIncr cname st.accu, cid0)
    else if cid0 < 0 then
      if addIfNotFound then
        let am := st.mgr.addMainName cname
        (am.2, alistInsert cname 0 st.accu, am.1)
      else (st.mgr, alistInsert cname 0 st.accu, cid0)
    else (st.mgr, st.accu, cid0)
  let mgr1 := step.1
  let accu1 := step.2.1
  let cid1 := step.2.2
  if 0 ≤ cid1 then
    match objectDictToAnno o cid1 with
    | .error e => .error e
    | .ok ann =>
      .ok { mgr := mgr1, accu := accu1, annoIdx := st.annoIdx + 1,
            boxes := st.boxes ++ [{ ann with index := st.annoIdx }],
            imgClassIds := setAdd st.imgClassIds cid1 }
  else
    .ok { mgr := mgr1, accu := accu1, annoIdx := st.annoIdx,
          boxes := st.boxes, imgClassIds := st.imgClassIds }

/-- Per-object loop of `_import_annotations_voc_xml` (lines 264-283). -/
def processVocObjects (addIfNotFound : Bool) :
    List VocObject → VocObjState → Except MirErr VocObjState
  | [], st => .ok st
  | o :: rest, st =>
    match vocObjStep addIfNotFound o st with
    | .error e => .error e
    | .ok st1 => processVocObjects addIfNotFound rest st1

/-- Python `dict.update`: merge `src` into `dst`, overwriting per key. -/
def cksUpdate (dst src : List (String × String)) : List (String × String) :=
  src.foldl (fun acc p => alistInsert p.1 p.2 acc) dst

/-- State threaded through the per-asset loop of the VOC importer. -/
structure VocDirState where
  imageCks : List (String × SingleImageCks)
  task : SingleTaskAnnos
  accu : List (String × Nat)
  mgr : UserLabels
deriving DecidableEq, Repr

/-- Body of one iteration of the per-asset loop of
`_import_annotations_voc_xml` (lines 237-287).  A missing or empty XML file
skips the asset.  Reading `mir_annotation.image_cks[asset_hash]` and
`image_annotations.image_annotations[asset_hash]` creates default entries,
which is kept (protobuf map access semantics). -/
def vocAssetStep (addIfNotFound : Bool) (xmlFiles : List (String × VocXml))
    (assetHash mainFileName : String) (st : VocDirState) (taskIds : List Int) :
    Except MirErr (VocDirState × List Int) :=
  match alistLookup mainFileName xmlFiles with
  | none => .ok (st, taskIds)
  | some xml =>
    let entry0 := (alistLookup assetHash st.imageCks).getD SingleImageCks.empty
    let entry1 := if xml.cks.isEmpty then entry0
      else { entry0 with cks := cksUpdate entry0.cks xml.cks }
    let imageCks1 := alistInsert assetHash entry1 st.imageCks
    match processVocObjects addIfNotFound xml.objects
        { mgr := st.mgr, accu := st.accu, annoIdx := 0,
          boxes := [], imgClassIds := [] } with
    | .error e => .error e
    | .ok ost =>
      let ia0 := (alistLookup assetHash st.task.image_annotations).getD SingleImageAnnos.empty
      let ia1 := { ia0 with
        boxes := ia0.boxes ++ ost.boxes,
        img_class_ids := ost.imgClassIds }
      let task1 := { st.task with
        image_annotations := alistInsert assetHash ia1 st.task.image_annotations }
      .ok ({ imageCks := imageCks1, task := task1, accu := ost.accu, mgr := ost.mgr },
        setUnionInt taskIds ost.imgClassIds)

/-- Per-asset loop of `_import_annotations_voc_xml` (lines 237-287). -/
def processVocAssets (addIfNotFound : Bool) (xmlFiles : List (String × VocXml)) :
    List (String × String) → VocDirState → List Int →
    Except MirErr (VocDirState × List Int)
  | [], st, taskIds => .ok (st, taskIds)
  | (assetHash, mainFileName) :: rest, st, taskIds =>
    match vocAssetStep addIfNotFound xmlFiles assetHash mainFileName st taskIds with
    | .error e => .error e
    | .ok (st1, taskIds1) => processVocAssets addIfNotFound xmlFiles rest st1 taskIds1

/-! ## `_import_annotations_seg_mask` -/

/-- A mask file as PIL sees it: unreadable (`UnidentifiedImageError` /
`OSError`), or decoded with a format string and an RGB pixel grid. -/
inductive MaskImage
  | undecodable
  | decoded (format : String) (pixels : List (List Color))
deriving DecidableEq, Repr

/-- Per-name loop of `_import_annotations_seg_mask` (lines 180-190): builds
`accu_new_class_names` (every name, known or not), `map_id_color` and
`map_color_cid` (known names only). -/
def segNameLoop (mgr : UserLabels) :
    List (String × Color) → List (String × Nat) → List (Int × IntPoint) →
    List (Color × Int) →
    List (String × Nat) × List (Int × IntPoint) × List (Color × Int)
  | [], accu, mic, mcc => (accu, mic, mcc)
  | (name, color) :: rest, accu, mic, mcc =>
    let rc := mgr.idAndMainNameForName name
    let cid := rc.1
    let cname := rc.2
    let accu1 := if cname ∈ alistKeys accu then accu else alistInsert cname 0 accu
    if 0 ≤ cid then
      segNameLoop mgr rest accu1
        (alistInsert cid ⟨color.1, color.2.1, color.2.2⟩ mic)
        (alistInsert color cid mcc)
    else segNameLoop mgr rest accu1 mic mcc

def gridMatches (px : List (List Color)) (c : Color) : Bool :=
  px.any (fun row => row.any (fun p => decide (p = c)))

/-- `np_mask[mask] = color`: pixels of `px` equal to `c` are painted `c` in
the output mask; other pixels keep their current output value. -/
def gridOverlay (px npm : List (List Color)) (c : Color) : List (List Color) :=
  List.zipWith
    (fun prow nrow => List.zipWith (fun p n => if p = c then c else n) prow nrow)
    px npm

/-- Per-color scan (lines 213-221): exact-match masks accumulated into the
fresh background-initialized output grid. -/
def segColorLoop (px : List (List Color)) :
    List (Color × Int) → List (List Color) → List Int →
    List (List Color) × List Int
  | [], npm, ids => (npm, ids)
  | (c, cid) :: rest, npm, ids =>
    if gridMatches px c then
      segColorLoop px rest (gridOverlay px npm c) (setAdd ids cid)
    else segColorLoop px rest npm ids

/-- Per-asset loop of `_import_annotations_seg_mask` (lines 193-228): missing
files, undecodable files and non-PNG formats are skipped; otherwise a freshly
re-encoded mask (containing only registered colors) is appended and the
per-image class-id list is set. -/
def segAssetLoop (maskFiles : List (String × MaskImage)) (mcc : List (Color × Int)) :
    List (String × String) → SingleTaskAnnos → SingleTaskAnnos
  | [], task => task
  | (assetHash, mainFileName) :: rest, task =>
    match alistLookup mainFileName maskFiles with
    | none => segAssetLoop maskFiles mcc rest task
    | some .undecodable => segAssetLoop maskFiles mcc rest task
    | some (.decoded format px) =>
      if pyLower format ≠ "png" then segAssetLoop maskFiles mcc rest task
      else
        let npm0 := px.map (fun row => row.map (fun _ => ((0, 0, 0) : Color)))
        let scan := segColorLoop px mcc npm0 []
        let ia0 := (alistLookup assetHash task.image_annotations).getD SingleImageAnnos.empty
        let ia1 := { ia0 with
          masks := ia0.masks ++ [⟨scan.1⟩],
          img_class_ids := scan.2 }
        segAssetLoop maskFiles mcc rest
          { task with image_annotations := alistInsert assetHash ia1 task.image_annotations }

/-! ## Annotation directories and the import pipeline -/

/-- `meta.yaml` as read by `_import_annotation_meta`: absent is handled by the
caller; `invalid` models a file that fails `yaml.safe_load` or does not parse
to a dict; `valid` carries the recognized keys (the `executor_config` value is
modelled by its `json.dumps` serialization). -/
inductive MetaYamlFile
  | invalid
  | valid (modelMeta : Option ModelMeta) (evalClassNames : Option (List String))
      (executorConfig : Option String)
deriving DecidableEq, Repr

/-- One annotation directory as the importer reads it: the auto-detection
markers (a `SegmentationClass` subdirectory and a `labelmap.txt` file), the
per-filename XML and mask files, and the optional `meta.yaml`.  A `none`
labelmap is a missing `labelmap.txt`; a file whose read yields an empty
string is modelled as absent (both are skipped identically). -/
structure AnnoDir where
  hasSegmentationClass : Bool
  labelmap : Option (List String)
  xmlFiles : List (String × VocXml)
  maskFiles : List (String × MaskImage)
  metaYaml : Option MetaYamlFile
deriving DecidableEq, Repr

/-- `_import_annotations_seg_mask` (lines 168-228), given the assets map and
the directory.  Raises `RC_CMD_INVALID_ARGS` when `labelmap.txt` is missing.
Returns the updated task annotations, accumulated name map and registry. -/
def importSegMask (assets : List (String × String)) (d : AnnoDir)
    (strategy : UTStrategy) (accu : List (String × Nat)) (mgr : UserLabels)
    (task : SingleTaskAnnos) :
    Except MirErr (SingleTaskAnnos × List (String × Nat) × UserLabels) :=
  match d.labelmap with
  | none => .error (.invalidArgs "labelmap.txt is required.")
  | some records =>
    match parseLabelmap records mgr with
    | .error e => .error e
    | .ok mapCnameColor =>
      let mgr1 := if strategy = .add then mgr.addMainNames (mapCnameColor.map (·.1))
        else mgr
      let nl := segNameLoop mgr1 mapCnameColor accu task.map_id_color []
      let accu1 := nl.1
      let task1 := { task with map_id_color := nl.2.1 }
      let task2 := segAssetLoop d.maskFiles nl.2.2 assets task1
      .ok (task2, accu1, mgr1)

/-- `_import_annotation_meta` (lines 292-318): absent file is a no-op, an
unparsable or non-dict file raises `RC_CMD_INVALID_META_YAML_FILE`; otherwise
model metadata, evaluation class ids (Python `or` falls back to the model's
class names when the list is absent or empty) and executor config are set. -/
def importAnnoMeta (d : AnnoDir) (mgr : UserLabels) (task : SingleTaskAnnos) :
    Except MirErr SingleTaskAnnos :=
  match d.metaYaml with
  | none => .ok task
  | some .invalid => .error .invalidMetaYaml
  | some (.valid modelMeta evalClassNames executorConfig) =>
    let task1 := match modelMeta with
      | some mm => { task with model := mm }
      | none => task
    let names := match evalClassNames with
      | some l => if l.isEmpty then task1.model.class_names else l
      | none => task1.model.class_names
    let ids := (mgr.idForNamesDropUnknown names).foldl setAdd []
    let task2 := { task1 with eval_class_ids := ids }
    match executorConfig with
    | some s => .ok { task2 with executor_config := s }
    | none => .ok task2

/-- `_import_annotations_from_dir` (lines 144-165): directory-triggered
override to segmentation-mask, type assignment, and dispatch through
`_annotation_parse_func` (which raises `NotImplementedError` for any other
type). -/
def importAnnosFromDir (assets : List (String × String)) (d : AnnoDir)
    (strategy : UTStrategy) (accu : List (String × Nat)) (mgr : UserLabels)
    (imageCks : List (String × SingleImageCks)) (task : SingleTaskAnnos)
    (annoType : AnnoType) :
    Except MirErr
      (List (String × SingleImageCks) × SingleTaskAnnos × List (String × Nat) × UserLabels) :=
  let annoType1 := if d.hasSegmentationClass && d.labelmap.isSome then .atSegMask
    else annoType
  let task1 := { task with type := annoType1 }
  match annoType1 with
  | .atDetBox | .atSegPolygon =>
    match processVocAssets (strategy = .add) d.xmlFiles assets
        { imageCks := imageCks, task := task1, accu := accu, mgr := mgr } [] with
    | .error e => .error e
    | .ok (st, taskIds) =>
      .ok (st.imageCks, { st.task with task_class_ids := taskIds }, st.accu, st.mgr)
  | .atSegMask =>
    match importSegMask assets d strategy accu mgr task1 with
    | .error e => .error e
    | .ok (task2, accu1, mgr1) => .ok (imageCks, task2, accu1, mgr1)
  | .atUnknown => .error .notImplemented

/-- `import_annotations` (lines 96-141): loads the registry, imports the
prediction directory (followed by its `meta.yaml`), then the ground-truth
directory, and finally fails with `RC_CMD_UNKNOWN_TYPES` when the strategy is
STOP and the accumulated name map is non-empty.  Returns the name map and the
final annotation set.  `env` is the on-disk label-storage environment backing
`load_or_create_userlabels`. -/
def importAnnotations (env : String → UserLabels) (labelStorageFile : String)
    (predDir gtDir : Option AnnoDir) (mapHashedFilename : List (String × String))
    (strategy : UTStrategy) (annoType : AnnoType) (mirAnnos : MirAnnos) :
    Except MirErr (List (String × Nat) × MirAnnos) :=
  let mgr0 := env labelStorageFile
  let predStep : Except MirErr (MirAnnos × List (String × Nat) × UserLabels) :=
    match predDir with
    | none => .ok (mirAnnos, [], mgr0)
    | some d =>
      match importAnnosFromDir mapHashedFilename d strategy [] mgr0
          mirAnnos.image_cks mirAnnos.prediction annoType with
      | .error e => .error e
      | .ok (cks1, task1, accu1, mgr1) =>
        match importAnnoMeta d mgr1 task1 with
        | .error e => .error e
        | .ok task2 =>
          .ok ({ mirAnnos with image_cks := cks1, prediction := task2 }, accu1, mgr1)
  match predStep with
  | .error e => .error e
  | .ok (annos1, accu1, mgr1) =>
    let gtStep : Except MirErr (MirAnnos × List (String × Nat)) :=
      match gtDir with
      | none => .ok (annos1, accu1)
      | some d =>
        match importAnnosFromDir mapHashedFilename d strategy accu1 mgr1
            annos1.image_cks annos1.ground_truth annoType with
        | .error e => .error e
        | .ok (cks2, task2, accu2, _) =>
          .ok ({ annos1 with image_cks := cks2, ground_truth := task2 }, accu2)
    match gtStep with
    | .error e => .error e
    | .ok (annos2, accu2) =>
      if strategy = .stop ∧ ¬ accu2.isEmpty then
        .error (.unknownTypes (alistKeys accu2))
      else .ok (accu2, annos2)

/-! ## Merge engine -/

/-- `match_asset_ids` (lines 538-550) on the key sets of the two maps:
`(host_only, guest_only, joint)`.  Python iterates sets in unspecified
order; the theorems below are phrased through lookups, which are
order-insensitive. -/
def matchAssetIds (hostIds guestIds : List String) :
    List String × List String × List String :=
  (hostIds.filter (fun i => decide (i ∉ guestIds)),
   guestIds.filter (fun i => decide (i ∉ hostIds)),
   hostIds.filter (fun i => decide (i ∈ guestIds)))

/-- Host-only copy loop: `target[id].CopyFrom(host[id])` where the target is
the host itself, so the source value is read from the evolving map.  A
protobuf map read of an absent key creates a default entry (unreachable
here, since host-only ids are keys of the host map). -/
def copySelfIds {α : Type} (dflt : α) :
    List String → List (String × α) → List (String × α)
  | [], acc => acc
  | id :: rest, acc =>
    copySelfIds dflt rest (alistInsert id ((alistLookup id acc).getD dflt) acc)

/-- Guest-only copy loop: `target[id].CopyFrom(guest[id])`. -/
def copyFromSrc {α : Type} (src : List (String × α)) (dflt : α) :
    List String → List (String × α) → List (String × α)
  | [], acc => acc
  | id :: rest, acc =>
    copyFromSrc src dflt rest (alistInsert id ((alistLookup id src).getD dflt) acc)

/-- Joint-id loop (lines 510-515 resp. 530-535): under `host` the entry is
copied from the target itself only when absent there; under `guest` the
guest entry overwrites; any other strategy leaves joint entries alone. -/
def mergeJointLoop {α : Type} (strategy : String) (guestMap : List (String × α))
    (dflt : α) : List String → List (String × α) → List (String × α)
  | [], acc => acc
  | id :: rest, acc =>
    if pyLower strategy = "host" then
      if id ∈ alistKeys acc then mergeJointLoop strategy guestMap dflt rest acc
      else mergeJointLoop strategy guestMap dflt rest
        (alistInsert id ((alistLookup id acc).getD dflt) acc)
    else if pyLower strategy = "guest" then
      mergeJointLoop strategy guestMap dflt rest
        (alistInsert id ((alistLookup id guestMap).getD dflt) acc)
    else mergeJointLoop strategy guestMap dflt rest acc

/-- Python `x or y` on `AnnoType` enum values: `AT_UNKNOWN` is `0` and falsy. -/
def pyOrType (h g : AnnoType) : AnnoType := if h = .atUnknown then g else h

/-- `_merge_pair_annotations` (lines 490-516) with `target = host`, as called
by `merge_annotations`.  Returns the host state as it stands when the
function returns or raises (the `type` field is assigned before the
strategy-stop conflict check, so it survives a `RC_CMD_MERGE_ERROR`). -/
def mergePairAnnos (host guest : SingleTaskAnnos) (strategy : String) :
    SingleTaskAnnos × Option MirErr :=
  if host.type ≠ .atUnknown ∧ guest.type ≠ .atUnknown ∧ host.type ≠ guest.type then
    (host, some .invalidAnnoType)
  else
    let host1 := { host with type := pyOrType host.type guest.type }
    let ids := matchAssetIds (alistKeys host.image_annotations)
      (alistKeys guest.image_annotations)
    if strategy = "stop" ∧ ¬ ids.2.2.isEmpty then (host1, some .mergeError)
    else
      let m1 := copySelfIds SingleImageAnnos.empty ids.1 host1.image_annotations
      let m2 := copyFromSrc guest.image_annotations SingleImageAnnos.empty ids.2.1 m1
      let m3 := mergeJointLoop strategy guest.image_annotations SingleImageAnnos.empty
        ids.2.2 m2
      ({ host1 with image_annotations := m3 }, none)

/-- `_merge_annotation_image_cks` (lines 518-535) with `target = host`. -/
def mergeImageCks (host guest : MirAnnos) (strategy : String) :
    MirAnnos × Option MirErr :=
  let ids := matchAssetIds (alistKeys host.image_cks) (alistKeys guest.image_cks)
  if strategy = "stop" ∧ ¬ ids.2.2.isEmpty then (host, some .mergeError)
  else
    let m1 := copySelfIds SingleImageCks.empty ids.1 host.image_cks
    let m2 := copyFromSrc guest.image_cks SingleImageCks.empty ids.2.1 m1
    let m3 := mergeJointLoop strategy guest.image_cks SingleImageCks.empty ids.2.2 m2
    ({ host with image_cks := m3 }, none)

/-- `merge_annotations` (lines 459-487): predictions, prediction
`eval_class_ids` concatenation, ground truths, then image cks; an exception
leaves the pairs already merged in place. -/
def mergeAnnotations (host guest : MirAnnos) (strategy : String) :
    MirAnnos × Option MirErr :=
  match mergePairAnnos host.prediction guest.prediction strategy with
  | (p1, some e) => ({ host with prediction := p1 }, some e)
  | (p1, none) =>
    let p2 := { p1 with
      eval_class_ids := p1.eval_class_ids ++ guest.prediction.eval_class_ids }
    match mergePairAnnos host.ground_truth guest.ground_truth strategy with
    | (g1, some e) => ({ host with prediction := p2, ground_truth := g1 }, some e)
    | (g1, none) =>
      mergeImageCks { host with prediction := p2, ground_truth := g1 } guest strategy

/-! ## `copy_annotations` (class-id remap) -/

/-- `mirpb.MirContext`: only the per-class occurrence counters used by
`_gen_unknown_names_and_count`. -/
structure MirContext where
  pred_stats : List (Int × Nat)
  gt_stats : List (Int × Nat)
deriving DecidableEq, Repr

/-- Box remap loop of `_change_annotations_type_ids` (lines 394-402): each
class id is pushed through the table (`KeyError` when absent), negative
targets drop the box. -/
def remapBoxes (table : List (Int × Int)) :
    List ObjectAnno → Except MirErr (List ObjectAnno)
  | [] => .ok []
  | ann :: rest =>
    match alistLookup ann.class_id table with
    | none => .error .keyError
    | some dst =>
      match remapBoxes table rest with
      | .error e => .error e
      | .ok tail =>
        if 0 ≤ dst then .ok ({ ann with class_id := dst } :: tail)
        else .ok tail

def remapImages (table : List (Int × Int)) :
    List (String × SingleImageAnnos) →
    Except MirErr (List (String × SingleImageAnnos))
  | [] => .ok []
  | (assetId, ia) :: rest =>
    match remapBoxes table ia.boxes with
    | .error e => .error e
    | .ok boxes1 =>
      match remapImages table rest with
      | .error e => .error e
      | .ok tail => .ok ((assetId, { ia with boxes := boxes1 }) :: tail)

def remapEvalIds (table : List (Int × Int)) :
    List Int → Except MirErr (List Int)
  | [] => .ok []
  | i :: rest =>
    match alistLookup i table with
    | none => .error .keyError
    | some dst =>
      match remapEvalIds table rest with
      | .error e => .error e
      | .ok tail => if 0 ≤ dst then .ok (dst :: tail) else .ok tail

/-- `_change_annotations_type_ids` (lines 390-409). -/
def changeAnnosTypeIds (task : SingleTaskAnnos) (table : List (Int × Int)) :
    Except MirErr SingleTaskAnnos :=
  match remapImages table task.image_annotations with
  | .error e => .error e
  | .ok ia =>
    match remapEvalIds table task.eval_class_ids with
    | .error e => .error e
    | .ok ev => .ok { task with image_annotations := ia, eval_class_ids := ev }

def unknownSrcLoop (table : List (Int × Int)) :
    List Int → Except MirErr (List Int)
  | [] => .ok []
  | i :: rest =>
    match alistLookup i table with
    | none => .error .keyError
    | some dst =>
      match unknownSrcLoop table rest with
      | .error e => .error e
      | .ok tail => if dst = -1 then .ok (i :: tail) else .ok tail

/-- Per-id body of `_gen_unknown_names_and_count` (lines 420-425); note the
code sums the prediction and ground-truth counters (their local variable
names are swapped, the sum is the same). -/
def buildUnknownNames (src : UserLabels) (ctx : MirContext) :
    List Int → Except MirErr (List (String × Nat))
  | [] => .ok []
  | i :: rest =>
    match src.mainNameForId i with
    | none => .error .classNotFound
    | some name =>
      match buildUnknownNames src ctx rest with
      | .error e => .error e
      | .ok tail =>
        .ok (alistInsert name
          ((alistLookup i ctx.pred_stats).getD 0 +
           (alistLookup i ctx.gt_stats).getD 0) tail)

def genUnknownNamesAndCount (src : UserLabels) (ctx : MirContext)
    (table : List (Int × Int)) : Except MirErr (List (String × Nat)) :=
  let allSrcIds := setUnionInt (ctx.pred_stats.map (·.1)).eraseDups
    (ctx.gt_stats.map (·.1)).eraseDups
  match unknownSrcLoop table allSrcIds with
  | .error e => .error e
  | .ok unknownIds =>
    if unknownIds.isEmpty then .ok []
    else buildUnknownNames src ctx unknownIds

/-- `copy_annotations` (lines 365-387): identity when the two label-storage
paths coincide or both image-annotation maps are empty; otherwise remaps all
class ids through the source-to-destination table and reports dropped
classes. -/
def copyAnnotations (env : String → UserLabels) (mirAnnos : MirAnnos)
    (mirContext : MirContext) (dataLabelStorageFile labelStorageFile : String) :
    Except MirErr (List (String × Nat) × MirAnnos) :=
  if dataLabelStorageFile = labelStorageFile ∨
      (mirAnnos.prediction.image_annotations = [] ∧
       mirAnnos.ground_truth.image_annotations = []) then
    .ok ([], mirAnnos)
  else
    let src := env dataLabelStorageFile
    let dst := env labelStorageFile
    let table := src.allMainNames.map
      (fun n => ((src.idAndMainNameForName n).1, (dst.idAndMainNameForName n).1))
    match changeAnnosTypeIds mirAnnos.prediction table with
    | .error e => .error e
    | .ok pred1 =>
      match changeAnnosTypeIds mirAnnos.ground_truth table with
      | .error e => .error e
      | .ok gt1 =>
        match genUnknownNamesAndCount src mirContext table with
        | .error e => .error e
        | .ok unknown =>
          .ok (unknown, { mirAnnos with prediction := pred1, ground_truth := gt1 })

/-! ## Filter and sampling -/

/-- `copy_annotations_pred_meta` (lines 321-325). -/
def copyAnnosPredMeta (src dst : SingleTaskAnnos) : SingleTaskAnnos :=
  { dst with
    eval_class_ids := src.eval_class_ids,
    executor_config := src.executor_config,
    model := src.model }

/-- `_gen_filter_task_annotations` (lines 450-455) into a fresh task. -/
def genFilterTaskAnnos (src : SingleTaskAnnos) (assetIds : List String) :
    SingleTaskAnnos :=
  let joint := assetIds.filter (fun i => decide (i ∈ alistKeys src.image_annotations))
  { SingleTaskAnnos.empty with
    type := src.type,
    image_annotations := copyFromSrc src.image_annotations SingleImageAnnos.empty joint [] }

/-- `filter_annotations` (lines 430-447). -/
def filterAnnotations (mirAnnos : MirAnnos) (assetIds : List String) : MirAnnos :=
  let gt := genFilterTaskAnnos mirAnnos.ground_truth assetIds
  let pred := genFilterTaskAnnos mirAnnos.prediction assetIds
  let ckIds := assetIds.filter (fun i => decide (i ∈ alistKeys mirAnnos.image_cks))
  let cks := copyFromSrc mirAnnos.image_cks SingleImageCks.empty ckIds []
  { prediction := copyAnnosPredMeta mirAnnos.prediction pred,
    ground_truth := gt, image_cks := cks }

/-- Per-id loop of `sampling_annotations` (lines 557-563). -/
def samplingLoop (mirAnnos : MirAnnos) :
    List String → List (String × SingleImageAnnos) → List (String × SingleImageAnnos) →
    List (String × SingleImageAnnos) × List (String × SingleImageAnnos)
  | [], pmap, gmap => (pmap, gmap)
  | id :: rest, pmap, gmap =>
    let pmap1 := match alistLookup id mirAnnos.prediction.image_annotations with
      | some v => alistInsert id v pmap
      | none => pmap
    let gmap1 := match alistLookup id mirAnnos.ground_truth.image_annotations with
      | some v => alistInsert id v gmap
      | none => gmap
    samplingLoop mirAnnos rest pmap1 gmap1

/-- `sampling_annotations` (lines 554-570): builds a fresh annotation set
containing only the sampled entries; the image custom-keys map of the fresh
set is never touched. -/
def samplingAnnotations (mirAnnos : MirAnnos) (sampledAssetIds : List String) :
    MirAnnos :=
  let maps := samplingLoop mirAnnos sampledAssetIds [] []
  let pred := copyAnnosPredMeta mirAnnos.prediction
    { SingleTaskAnnos.empty with
      type := mirAnnos.prediction.type, image_annotations := maps.1 }
  let gt := { SingleTaskAnnos.empty with
    type := mirAnnos.ground_truth.type, image_annotations := maps.2 }
  { prediction := pred, ground_truth := gt, image_cks := [] }

/-! ## Sandbox migrator (`common_utils/sandbox.py`) -/

/-- Result of reading a user's `labels.yaml`: missing or unparsable (both
raise `INVALID_USER_LABEL_FILE`), or a parsed dict with an optional
`ymir_version` key. -/
inductive LabelFileState
  | missing
  | unparsable
  | parsed (ymirVersion : Option String)
deriving DecidableEq, Repr

/-- Modelled from the spec: `mir.version.DEFAULT_YMIR_SRC_VERSION` (the
`mir.version` module is not among the provided sources); its exact value is
immaterial to the claims. -/
def DEFAULT_YMIR_SRC_VERSION : String := "1.1.0"

/-- One repository directory: the `.git` working-copy marker and the rest of
the repository's on-disk state, abstracted as a string of bytes. -/
structure RepoDir where
  has_git : Bool
  content : String
deriving DecidableEq, Repr

/-- One directory entry under the sandbox root: candidate repository
subdirectories and the `labels.yaml` state. -/
structure UserDir where
  repos : List (String × RepoDir)
  labelFile : LabelFileState
deriving DecidableEq, Repr

/-- The sandbox root: its directory entries (user directories and anything
else `os.listdir` returns) and the `backup` directory (`none` = absent; the
name `backup` never matches the numeric user-id pattern, so it is kept out
of `entries`). -/
structure SandboxRoot where
  entries : List (String × UserDir)
  backup : Option (List (String × UserDir))
deriving DecidableEq, Repr

inductive SandboxErr
  | invalidUserLabelFile (path : String)
  | invalidUserSpaceVersions
  | backupDirNotEmpty
  | upgradeErr (msg : String)
deriving DecidableEq, Repr

/-- Modelled from the spec: `re.match` against the fixed-width numeric id
pattern `\d{n}` (the `id_definition.task_id.IDProto` constants are not among
the provided sources, so the width is a parameter).  `re.match` anchors at
the start only: the first `n` characters must be digits. -/
def matchFixedDigits (n : Nat) (s : String) : Bool :=
  decide (n ≤ s.length) && (s.toList.take n).all Char.isDigit

/-- `_detect_users_and_repos` (sandbox.py lines 101-121): user directories
matching the user-id pattern, each with its repo ids matching the repo-id
pattern and containing a `.git` marker.  A user with no matching repos is
still listed (defaultdict semantics). -/
def detectUsersAndRepos (userIdLen repoIdLen : Nat) (root : SandboxRoot) :
    List (String × List String) :=
  (root.entries.filter (fun e => matchFixedDigits userIdLen e.1)).map
    (fun e =>
      (e.1, (e.2.repos.filter
        (fun r => matchFixedDigits repoIdLen r.1 && r.2.has_git)).map (·.1)))

/-- Version-collection loop of `detect_sandbox_src_ver` (lines 40-49). -/
def collectVersions (root : SandboxRoot) :
    List (String × List String) → List (String × List String) →
    Except SandboxErr (List (String × List String))
  | [], acc => .ok acc
  | (userId, _) :: rest, acc =>
    match alistLookup userId root.entries with
    | none => .error (.invalidUserLabelFile userId)
    | some dir =>
      match dir.labelFile with
      | .missing => .error (.invalidUserLabelFile userId)
      | .unparsable => .error (.invalidUserLabelFile userId)
      | .parsed v =>
        let ver := v.getD DEFAULT_YMIR_SRC_VERSION
        let users := (alistLookup ver acc).getD []
        collectVersions root rest (alistInsert ver (users ++ [userId]) acc)

/-- `detect_sandbox_src_ver` (lines 24-55): fails with
`INVALID_USER_SPACE_VERSIONS` unless exactly one distinct version is
declared across all discovered users. -/
def detectSandboxSrcVer (userIdLen repoIdLen : Nat) (root : SandboxRoot) :
    Except SandboxErr String :=
  match collectVersions root (detectUsersAndRepos userIdLen repoIdLen root) [] with
  | .error e => .error e
  | .ok verToUsers =>
    match verToUsers with
    | [(ver, _)] => .ok ver
    | _ => .error .invalidUserSpaceVersions

/-- An upgrade function, acting on one repository's on-disk state; an
exception is an error message. -/
def UpdateFunc : Type := String → Except String String

/-- `_backup` (lines 75-83): create the backup directory if absent, fail with
`BACKUP_DIR_NOT_EMPTY` when it is non-empty, else recursively copy every
discovered user directory into it. -/
def backupStep (userIdLen : Nat) (root : SandboxRoot) :
    SandboxRoot × Option SandboxErr :=
  let bk := root.backup.getD []
  if ¬ bk.isEmpty then ({ root with backup := some bk }, some .backupDirNotEmpty)
  else
    ({ root with
       backup := some (root.entries.filter (fun e => matchFixedDigits userIdLen e.1)) },
     none)

def applyFuncs (funcs : List UpdateFunc) (content : String) : Except String String :=
  match funcs with
  | [] => .ok content
  | f :: rest =>
    match f content with
    | .error e => .error e
    | .ok c1 => applyFuncs rest c1

/-- Upgrade of one repository at `(userId, repoId)`: the caller-supplied
functions run in order against the repository root.  The lookups cannot fail
for detected pairs; a miss leaves the entries unchanged. -/
def upgradeOneRepo (funcs : List UpdateFunc) (entries : List (String × UserDir))
    (userId repoId : String) : List (String × UserDir) × Option String :=
  match alistLookup userId entries with
  | none => (entries, none)
  | some dir =>
    match alistLookup repoId dir.repos with
    | none => (entries, none)
    | some repo =>
      match applyFuncs funcs repo.content with
      | .error msg => (entries, some msg)
      | .ok c1 =>
        (alistInsert userId
          { dir with repos := alistInsert repoId { repo with content := c1 } dir.repos }
          entries, none)

def upgradeRepoList (funcs : List UpdateFunc) (userId : String) :
    List String → List (String × UserDir) → List (String × UserDir) × Option String
  | [], entries => (entries, none)
  | repoId :: rest, entries =>
    match upgradeOneRepo funcs entries userId repoId with
    | (entries1, some msg) => (entries1, some msg)
    | (entries1, none) => upgradeRepoList funcs userId rest entries1

/-- The upgrade loop of `update` (lines 63-66), stopping at the first
exception and reporting the entries as mutated so far. -/
def upgradeUserList (funcs : List UpdateFunc) :
    List (String × List String) → List (String × UserDir) →
    List (String × UserDir) × Option String
  | [], entries => (entries, none)
  | (userId, repoIds) :: rest, entries =>
    match upgradeRepoList funcs userId repoIds entries with
    | (entries1, some msg) => (entries1, some msg)
    | (entries1, none) => upgradeUserList funcs rest entries1

/-- Restoration loop of `_roll_back` (lines 88-92): delete each live user
directory and copy the backed-up one back.  (A user id missing from the
backup would raise in Python; it is unreachable here because upgrade
functions only rewrite repository contents.) -/
def restoreUsers (bk : List (String × UserDir)) :
    List String → List (String × UserDir) → List (String × UserDir)
  | [], entries => entries
  | userId :: rest, entries =>
    match alistLookup userId bk with
    | some d => restoreUsers bk rest (alistInsert userId d entries)
    | none => restoreUsers bk rest entries

/-- `_roll_back` (lines 86-94), including the final `_remove_backup`. -/
def rollBack (userIdLen repoIdLen : Nat) (root : SandboxRoot) : SandboxRoot :=
  let bk := root.backup.getD []
  let users := (detectUsersAndRepos userIdLen repoIdLen root).map (·.1)
  { entries := restoreUsers bk users root.entries, backup := none }

/-- `update` (lines 58-72): back up, upgrade every discovered (user, repo)
pair with every function, roll back and re-raise on any failure, drop the
backup on success. -/
def sandboxUpdate (userIdLen repoIdLen : Nat) (root : SandboxRoot)
    (funcs : List UpdateFunc) : SandboxRoot × Option SandboxErr :=
  match backupStep userIdLen root with
  | (root1, some e) => (root1, some e)
  | (root1, none) =>
    let pairs := detectUsersAndRepos userIdLen repoIdLen root1
    match upgradeUserList funcs pairs root1.entries with
    | (entries1, none) => ({ entries := entries1, backup := none }, none)
    | (entries1, some msg) =>
      (rollBack userIdLen repoIdLen { root1 with entries := entries1 },
       some (.upgradeErr msg))


/-! ## Statement helpers and concrete instances used by the claims -/

deriving instance DecidableEq for Except

/-- All `object` nodes the VOC XML importer encounters: for each asset in
order, the objects of its XML file when that file exists. -/
def vocObjectsOfFiles (xmlFiles : List (String × VocXml)) :
    List (String × String) → List VocObject
  | [] => []
  | (_, fname) :: rest =>
    (match alistLookup fname xmlFiles with
     | some xml => xml.objects
     | none => []) ++ vocObjectsOfFiles xmlFiles rest

def vocObjectsOf (d : AnnoDir) (assets : List (String × String)) : List VocObject :=
  vocObjectsOfFiles d.xmlFiles assets

/-- Some encountered object name does not resolve in the registry. -/
def anyUnknownName (mgr : UserLabels) (os : List VocObject) : Bool :=
  os.any (fun o => decide ((mgr.idAndMainNameForName o.name).1 < 0))

def allHaveBndbox (os : List VocObject) : Bool :=
  os.all (fun o => o.bndbox.isSome)

/-- The directory triggers the segmentation-mask auto-detection override. -/
def segOverride (d : AnnoDir) : Bool :=
  d.hasSegmentationClass && d.labelmap.isSome

def optDirUnknown (mgr : UserLabels) (od : Option AnnoDir)
    (assets : List (String × String)) : Bool :=
  match od with
  | some d => anyUnknownName mgr (vocObjectsOf d assets)
  | none => false

/-- Registry environment with one known class `cat` (id 0). -/
def envC1 : String → UserLabels := fun _ => ⟨[("cat", 0)]⟩

/-- A segmentation-mask ground-truth directory whose labelmap names only the
known class `cat`. -/
def segDirC1 : AnnoDir :=
  { hasSegmentationClass := true, labelmap := some ["cat:10,20,30::"],
    xmlFiles := [], maskFiles := [], metaYaml := none }

/-- Empty registry environment: every name is unknown. -/
def envEmptyReg : String → UserLabels := fun _ => ⟨[]⟩

/-- A VOC XML prediction directory with a single object named `dog`. -/
def vocDirC1 : AnnoDir :=
  { hasSegmentationClass := false, labelmap := none,
    xmlFiles := [("img1", { cks := [], objects :=
      [{ name := "dog", bndbox := some ⟨1, 2, 3, 4⟩, polygon := false, tags := [] }] })],
    maskFiles := [], metaYaml := none }

def assetsC1 : List (String × String) := [("hashA", "img1")]

/-- A sandbox with one user `0001` holding one git repo `000001`. -/
def rootC7 : SandboxRoot :=
  { entries := [("0001",
      { repos := [("000001", { has_git := true, content := "v1" })],
        labelFile := .parsed none })],
    backup := none }

/-- An upgrade function list whose single member always raises. -/
def funcsC7 : List UpdateFunc := [fun _ => .error "boom"]

/-- A sandbox root none of whose entries matches the numeric user-id
pattern. -/
def rootC10 : SandboxRoot := { entries := [("tmp", { repos := [], labelFile := .missing })], backup := none }

def annosC9 : MirAnnos :=
  { MirAnnos.empty with image_cks := [("h1", { cks := [("k", "v")] })] }


/-! ## General lemmas about the association-list helpers -/

theorem alistLookup_insert_self {κ α : Type} [DecidableEq κ] (k : κ) (v : α)
    (l : List (κ × α)) : alistLookup k (alistInsert k v l) = some v := by
  induction l with
  | nil => simp [alistInsert, alistLookup]
  | cons hd tl ih =>
    obtain ⟨k', v'⟩ := hd
    by_cases h : k' = k <;> simp [alistInsert, alistLookup, h, ih]

theorem alistKeys_cons {κ α : Type} (p : κ × α) (l : List (κ × α)) :
    alistKeys (p :: l) = p.1 :: alistKeys l := rfl

theorem alistLookup_insert_ne {κ α : Type} [DecidableEq κ] {k k' : κ} (v : α)
    (l : List (κ × α)) (h : k' ≠ k) :
    alistLookup k (alistInsert k' v l) = alistLookup k l := by
  induction l with
  | nil => simp [alistInsert, alistLookup, h]
  | cons hd tl ih =>
    obtain ⟨k'', v''⟩ := hd
    by_cases h2 : k'' = k'
    · subst h2
      simp [alistInsert, alistLookup, h]
    · by_cases h3 : k'' = k <;>
        simp [alistInsert, alistLookup, h2, h3, ih, Ne.symm h]

theorem alistKeys_insert_of_mem {κ α : Type} [DecidableEq κ] {k : κ} (v : α)
    {l : List (κ × α)} (h : k ∈ alistKeys l) :
    alistKeys (alistInsert k v l) = alistKeys l := by
  induction l with
  | nil => simp [alistKeys] at h
  | cons hd tl ih =>
    obtain ⟨k', v'⟩ := hd
    by_cases h2 : k' = k
    · simp [alistInsert, alistKeys, h2]
    · rw [alistKeys_cons] at h
      rcases List.mem_cons.mp h with h | h
      · exact absurd h.symm h2
      · simp only [alistInsert, if_neg h2, alistKeys_cons, ih h]

theorem alistLookup_isSome_of_mem {κ α : Type} [DecidableEq κ] {k : κ}
    {l : List (κ × α)} (h : k ∈ alistKeys l) : (alistLookup k l).isSome := by
  induction l with
  | nil => simp [alistKeys] at h
  | cons hd tl ih =>
    obtain ⟨k', v'⟩ := hd
    by_cases h2 : k' = k
    · simp [alistLookup, h2]
    · rw [alistKeys_cons] at h
      rcases List.mem_cons.mp h with h | h
      · exact absurd h.symm h2
      · simpa [alistLookup, h2] using ih h

theorem alistLookup_mem_of_isSome {κ α : Type} [DecidableEq κ] {k : κ}
    {l : List (κ × α)} (h : (alistLookup k l).isSome) : k ∈ alistKeys l := by
  induction l with
  | nil => simp [alistLookup] at h
  | cons hd tl ih =>
    obtain ⟨k', v'⟩ := hd
    by_cases h2 : k' = k
    · simp [alistKeys, h2]
    · simp only [alistLookup, if_neg h2] at h
      rw [alistKeys_cons]
      exact List.mem_cons.mpr (Or.inr (ih h))

/-! ## Lookup lemmas for the copy loops -/

theorem lookup_copyFromSrc {α : Type} (src : List (String × α)) (dflt : α)
    (ids : List String) (acc : List (String × α)) (id : String) :
    alistLookup id (copyFromSrc src dflt ids acc) =
      if id ∈ ids then some ((alistLookup id src).getD dflt)
      else alistLookup id acc := by
  induction ids generalizing acc with
  | nil => simp [copyFromSrc]
  | cons k rest ih =>
    rw [copyFromSrc, ih]
    by_cases hmem : id ∈ rest
    · simp [hmem]
    · by_cases hk : id = k
      · subst hk
        simp [hmem, alistLookup_insert_self]
      · simp [hmem, hk, alistLookup_insert_ne _ _ (Ne.symm hk)]

theorem lookup_copySelfIds_notMem {α : Type} (dflt : α) (ids : List String)
    (acc : List (String × α)) (id : String) (h : id ∉ ids) :
    alistLookup id (copySelfIds dflt ids acc) = alistLookup id acc := by
  induction ids generalizing acc with
  | nil => rw [copySelfIds]
  | cons k rest ih =>
    have hne : k ≠ id := fun hk => h (by rw [hk]; exact List.mem_cons_self _ _)
    rw [copySelfIds, ih _ (fun hm => h (List.mem_cons_of_mem _ hm)),
      alistLookup_insert_ne _ _ hne]

/-! ## Claim C8 -/

/-- Claim C8: for every XML object record with a `bndbox`, the box importer
produces `x = xmin`, `y = ymin`, `w = xmax - xmin + 1`, `h = ymax - ymin + 1`
(inclusive pixel bounds); in particular `bndbox {xmin 10, ymin 10, xmax 19,
ymax 14}` yields the box `{x 10, y 10, w 10, h 5}`. -/
theorem claimC8 :
    (∀ (name : String) (tags : List (String × String)) (poly : Bool)
        (b : Bndbox) (cid : Int),
      objectDictToAnno ⟨name, some b, poly, tags⟩ cid =
        .ok { index := 0, class_id := cid,
              box := { x := b.xmin, y := b.ymin,
                       w := b.xmax - b.xmin + 1, h := b.ymax - b.ymin + 1 },
              tags := tags })
    ∧ objectDictToAnno ⟨"person", some ⟨10, 10, 19, 14⟩, false, []⟩ 0 =
        .ok { index := 0, class_id := 0,
              box := { x := 10, y := 10, w := 10, h := 5 }, tags := [] } :=
  ⟨fun _ _ _ _ _ => rfl, by decide⟩

/-! ## Claim C2 -/

/-- Claim C2 is a code bug: `_parse_labelmap` is meant to skip a `(0, 0, 0)`
line (it even logs "ignore background color."), but the guard compares the
Python list `pos_ints` against the tuple `(0, 0, 0)`, which is always
`False`; parsing a labelmap with a background line and one valid line
therefore yields a table with TWO entries, the background name mapped to
`(0, 0, 0)`, where the claim (and the spec) require one entry and no
background-color assignment. -/
theorem claimC2_eval :
    parseLabelmap ["background:0,0,0::", "name:10,20,30::"] ⟨[]⟩ =
      .ok [("background", ((0, 0, 0) : Color)), ("name", ((10, 20, 30) : Color))] := by
  decide

/-! ## Claim C6 -/

/-- Claim C6: `copy_annotations` is the identity — empty unknown-names map,
structurally unchanged annotation set — when the source and destination
label files are the same path, or when both the prediction and ground-truth
image-annotation maps are empty. -/
theorem claimC6 (env : String → UserLabels) (mirAnnos : MirAnnos)
    (ctx : MirContext) (dataFile lblFile : String)
    (h : dataFile = lblFile ∨
      (mirAnnos.prediction.image_annotations = [] ∧
       mirAnnos.ground_truth.image_annotations = [])) :
    copyAnnotations env mirAnnos ctx dataFile lblFile = .ok ([], mirAnnos) := by
  unfold copyAnnotations
  rw [if_pos h]

theorem claimC6_witness :
    copyAnnotations envEmptyReg MirAnnos.empty ⟨[], []⟩ "labels.yaml" "labels.yaml" =
      .ok ([], MirAnnos.empty) :=
  claimC6 envEmptyReg MirAnnos.empty ⟨[], []⟩ "labels.yaml" "labels.yaml" (Or.inl rfl)

/-! ## Claim C10 -/

/-- Claim C10: when zero user directories are discovered under the sandbox
root, `detect_sandbox_src_ver` fails with `INVALID_USER_SPACE_VERSIONS` —
the same error as for heterogeneous versions — rather than succeeding or
reporting a distinct empty-sandbox condition. -/
theorem claimC10 (userIdLen repoIdLen : Nat) (root : SandboxRoot)
    (h : detectUsersAndRepos userIdLen repoIdLen root = []) :
    detectSandboxSrcVer userIdLen repoIdLen root =
      .error .invalidUserSpaceVersions := by
  unfold detectSandboxSrcVer
  rw [h]
  rfl

theorem claimC10_witness :
    detectSandboxSrcVer 4 6 rootC10 = .error .invalidUserSpaceVersions :=
  claimC10 4 6 rootC10 (by decide)

/-! ## Claim C9 -/

/-- Claim C9: `sampling_annotations` always returns an annotation set with an
empty `image_cks` map, while `filter_annotations` copies the custom keys of
every selected asset. -/
theorem claimC9 :
    (∀ (mirAnnos : MirAnnos) (ids : List String),
      (samplingAnnotations mirAnnos ids).image_cks = [])
    ∧ (∀ (mirAnnos : MirAnnos) (assetIds : List String) (id : String),
        id ∈ assetIds → id ∈ alistKeys mirAnnos.image_cks →
        alistLookup id (filterAnnotations mirAnnos assetIds).image_cks =
          alistLookup id mirAnnos.image_cks) := by
  constructor
  · intro mirAnnos ids
    rfl
  · intro mirAnnos assetIds id hmem hkey
    show alistLookup id (copyFromSrc mirAnnos.image_cks SingleImageCks.empty
      (assetIds.filter (fun i => decide (i ∈ alistKeys mirAnnos.image_cks))) []) = _
    rw [lookup_copyFromSrc]
    rw [if_pos (List.mem_filter.mpr ⟨hmem, by simpa using hkey⟩)]
    obtain ⟨v, hv⟩ := Option.isSome_iff_exists.mp (alistLookup_isSome_of_mem hkey)
    rw [hv]
    rfl

theorem claimC9_witness :
    (samplingAnnotations annosC9 ["h1"]).image_cks = [] ∧
    alistLookup "h1" (filterAnnotations annosC9 ["h1"]).image_cks =
      alistLookup "h1" annosC9.image_cks :=
  ⟨claimC9.1 annosC9 ["h1"], claimC9.2 annosC9 ["h1"] "h1" (by decide) (by decide)⟩

/-! ## Lookup lemmas for the merge joint loop -/

theorem lookup_mergeJointLoop_guest {α : Type} (guestMap : List (String × α))
    (dflt : α) (ids : List String) (acc : List (String × α)) (id : String) :
    alistLookup id (mergeJointLoop "guest" guestMap dflt ids acc) =
      if id ∈ ids then some ((alistLookup id guestMap).getD dflt)
      else alistLookup id acc := by
  induction ids generalizing acc with
  | nil => simp [mergeJointLoop]
  | cons k rest ih =>
    rw [mergeJointLoop, if_neg (show ¬ pyLower "guest" = "host" by decide),
      if_pos (show pyLower "guest" = "guest" by decide), ih]
    by_cases hmem : id ∈ rest
    · simp [hmem]
    · by_cases hk : id = k
      · subst hk
        simp [hmem, alistLookup_insert_self]
      · simp [hmem, hk, alistLookup_insert_ne _ _ (Ne.symm hk)]

theorem lookup_mergeJointLoop_host {α : Type} (guestMap : List (String × α))
    (dflt : α) (ids : List String) (acc : List (String × α)) (id : String)
    (v : α) (h : alistLookup id acc = some v) :
    alistLookup id (mergeJointLoop "host" guestMap dflt ids acc) = some v := by
  induction ids generalizing acc with
  | nil => rw [mergeJointLoop]; exact h
  | cons k rest ih =>
    rw [mergeJointLoop, if_pos (show pyLower "host" = "host" by decide)]
    by_cases hk : k ∈ alistKeys acc
    · rw [if_pos hk]
      exact ih acc h
    · rw [if_neg hk]
      have hne : k ≠ id := by
        intro he
        exact hk (he ▸ alistLookup_mem_of_isSome (by rw [h]; rfl))
      exact ih _ (by rw [alistLookup_insert_ne _ _ hne]; exact h)

/-! ## Claim C5 -/

/-- Claim C5: merging two task annotation sets fails with
`RC_CMD_INVALID_ANNO_TYPE` when both declare a concrete (non-unknown) type
and the types differ; otherwise the resulting type is the host's type when
it is non-unknown and the guest's type otherwise. -/
theorem claimC5 :
    (∀ (host guest : SingleTaskAnnos) (strategy : String),
      host.type ≠ .atUnknown → guest.type ≠ .atUnknown → host.type ≠ guest.type →
      mergePairAnnos host guest strategy = (host, some .invalidAnnoType))
    ∧ (∀ (host guest : SingleTaskAnnos) (strategy : String),
        ¬ (host.type ≠ .atUnknown ∧ guest.type ≠ .atUnknown ∧ host.type ≠ guest.type) →
        (mergePairAnnos host guest strategy).1.type =
          (if host.type = .atUnknown then guest.type else host.type)) := by
  constructor
  · intro host guest strategy h1 h2 h3
    unfold mergePairAnnos
    rw [if_pos ⟨h1, h2, h3⟩]
  · intro host guest strategy h
    unfold mergePairAnnos
    rw [if_neg h]
    by_cases h2 : strategy = "stop" ∧
        ¬ (matchAssetIds (alistKeys host.image_annotations)
            (alistKeys guest.image_annotations)).2.2.isEmpty
    · rw [if_pos h2]
      rfl
    · rw [if_neg h2]
      rfl

theorem claimC5_witness :
    mergePairAnnos { SingleTaskAnnos.empty with type := .atDetBox }
        { SingleTaskAnnos.empty with type := .atSegMask } "host" =
      ({ SingleTaskAnnos.empty with type := .atDetBox }, some .invalidAnnoType) ∧
    (mergePairAnnos { SingleTaskAnnos.empty with type := .atUnknown }
        { SingleTaskAnnos.empty with type := .atSegMask } "host").1.type = .atSegMask :=
  ⟨claimC5.1 _ _ "host" (by decide) (by decide) (by decide),
   by
    have h := claimC5.2 { SingleTaskAnnos.empty with type := .atUnknown }
      { SingleTaskAnnos.empty with type := .atSegMask } "host"
      (by intro hc; exact hc.1 rfl)
    simpa using h⟩

/-! ## Claim C3 -/

/-- Claim C3: a merge pair call under strategy `stop` with a non-empty joint
id set fails with `RC_CMD_MERGE_ERROR` and copies no entries of that pair:
the host's map is exactly as before (only the already-assigned `type` field
differs for task-annotation pairs, as it is set before the conflict check);
likewise for the image custom-keys pair, which is returned fully untouched. -/
theorem claimC3 :
    (∀ (host guest : SingleTaskAnnos),
      ¬ (host.type ≠ .atUnknown ∧ guest.type ≠ .atUnknown ∧ host.type ≠ guest.type) →
      (∃ id, id ∈ alistKeys host.image_annotations ∧
        id ∈ alistKeys guest.image_annotations) →
      mergePairAnnos host guest "stop" =
        ({ host with type := pyOrType host.type guest.type }, some .mergeError))
    ∧ (∀ (host guest : MirAnnos),
        (∃ id, id ∈ alistKeys host.image_cks ∧ id ∈ alistKeys guest.image_cks) →
        mergeImageCks host guest "stop" = (host, some .mergeError)) := by
  constructor
  · intro host guest hcompat hjoint
    obtain ⟨id, h1, h2⟩ := hjoint
    unfold mergePairAnnos
    rw [if_neg hcompat]
    rw [if_pos ⟨rfl, by
      intro hemp
      rw [List.isEmpty_iff] at hemp
      have hm : id ∈ (alistKeys host.image_annotations).filter
          (fun i => decide (i ∈ alistKeys guest.image_annotations)) :=
        List.mem_filter.mpr ⟨h1, by simpa using h2⟩
      rw [show (alistKeys host.image_annotations).filter
          (fun i => decide (i ∈ alistKeys guest.image_annotations)) =
          (matchAssetIds (alistKeys host.image_annotations)
            (alistKeys guest.image_annotations)).2.2 from rfl, hemp] at hm
      exact absurd hm (List.not_mem_nil id)⟩]
  · intro host guest hjoint
    obtain ⟨id, h1, h2⟩ := hjoint
    unfold mergeImageCks
    rw [if_pos ⟨rfl, by
      intro hemp
      rw [List.isEmpty_iff] at hemp
      have hm : id ∈ (alistKeys host.image_cks).filter
          (fun i => decide (i ∈ alistKeys guest.image_cks)) :=
        List.mem_filter.mpr ⟨h1, by simpa using h2⟩
      rw [show (alistKeys host.image_cks).filter
          (fun i => decide (i ∈ alistKeys guest.image_cks)) =
          (matchAssetIds (alistKeys host.image_cks)
            (alistKeys guest.image_cks)).2.2 from rfl, hemp] at hm
      exact absurd hm (List.not_mem_nil id)⟩]

theorem claimC3_witness :
    mergePairAnnos
        { SingleTaskAnnos.empty with image_annotations := [("h1", SingleImageAnnos.empty)] }
        { SingleTaskAnnos.empty with image_annotations := [("h1", SingleImageAnnos.empty)] }
        "stop" =
      ({ SingleTaskAnnos.empty with image_annotations := [("h1", SingleImageAnnos.empty)] },
        some .mergeError) ∧
    mergeImageCks
        { MirAnnos.empty with image_cks := [("h1", SingleImageCks.empty)] }
        { MirAnnos.empty with image_cks := [("h1", SingleImageCks.empty)] } "stop" =
      ({ MirAnnos.empty with image_cks := [("h1", SingleImageCks.empty)] },
        some .mergeError) :=
  ⟨claimC3.1 _ _ (by intro hc; exact hc.1 rfl) ⟨"h1", by decide, by decide⟩,
   claimC3.2 _ _ ⟨"h1", by decide, by decide⟩⟩

/-! ## Claim C4 -/

theorem mergePair_map_eq (host guest : SingleTaskAnnos) (strategy : String)
    (hcompat : ¬ (host.type ≠ .atUnknown ∧ guest.type ≠ .atUnknown ∧
      host.type ≠ guest.type))
    (hnostop : ¬ (strategy = "stop" ∧
      ¬ ((alistKeys host.image_annotations).filter
        (fun i => decide (i ∈ alistKeys guest.image_annotations))).isEmpty)) :
    (mergePairAnnos host guest strategy).1.image_annotations =
      mergeJointLoop strategy guest.image_annotations SingleImageAnnos.empty
        ((alistKeys host.image_annotations).filter
          (fun i => decide (i ∈ alistKeys guest.image_annotations)))
        (copyFromSrc guest.image_annotations SingleImageAnnos.empty
          ((alistKeys guest.image_annotations).filter
            (fun i => decide (i ∉ alistKeys host.image_annotations)))
          (copySelfIds SingleImageAnnos.empty
            ((alistKeys host.image_annotations).filter
              (fun i => decide (i ∉ alistKeys guest.image_annotations)))
            host.image_annotations)) := by
  simp only [mergePairAnnos, matchAssetIds]
  rw [if_neg hcompat, if_neg hnostop]

theorem mergeCks_map_eq (host guest : MirAnnos) (strategy : String)
    (hnostop : ¬ (strategy = "stop" ∧
      ¬ ((alistKeys host.image_cks).filter
        (fun i => decide (i ∈ alistKeys guest.image_cks))).isEmpty)) :
    (mergeImageCks host guest strategy).1.image_cks =
      mergeJointLoop strategy guest.image_cks SingleImageCks.empty
        ((alistKeys host.image_cks).filter
          (fun i => decide (i ∈ alistKeys guest.image_cks)))
        (copyFromSrc guest.image_cks SingleImageCks.empty
          ((alistKeys guest.image_cks).filter
            (fun i => decide (i ∉ alistKeys host.image_cks)))
          (copySelfIds SingleImageCks.empty
            ((alistKeys host.image_cks).filter
              (fun i => decide (i ∉ alistKeys guest.image_cks)))
            host.image_cks)) := by
  simp only [mergeImageCks, matchAssetIds]
  rw [if_neg hnostop]

/-- Claim C4: for every joint asset id (present in both host and guest),
strategy `guest` makes the merged entry equal the guest's entry bit-for-bit,
and strategy `host` preserves the pre-existing host entry unchanged; this
holds for the task-annotation pairs and for the image custom-keys map
alike. -/
theorem claimC4 :
    (∀ (host guest : SingleTaskAnnos) (id : String),
      ¬ (host.type ≠ .atUnknown ∧ guest.type ≠ .atUnknown ∧ host.type ≠ guest.type) →
      id ∈ alistKeys host.image_annotations → id ∈ alistKeys guest.image_annotations →
      alistLookup id (mergePairAnnos host guest "guest").1.image_annotations =
        alistLookup id guest.image_annotations)
    ∧ (∀ (host guest : SingleTaskAnnos) (id : String),
      ¬ (host.type ≠ .atUnknown ∧ guest.type ≠ .atUnknown ∧ host.type ≠ guest.type) →
      id ∈ alistKeys host.image_annotations → id ∈ alistKeys guest.image_annotations →
      alistLookup id (mergePairAnnos host guest "host").1.image_annotations =
        alistLookup id host.image_annotations)
    ∧ (∀ (host guest : MirAnnos) (id : String),
      id ∈ alistKeys host.image_cks → id ∈ alistKeys guest.image_cks →
      alistLookup id (mergeImageCks host guest "guest").1.image_cks =
        alistLookup id guest.image_cks)
    ∧ (∀ (host guest : MirAnnos) (id : String),
      id ∈ alistKeys host.image_cks → id ∈ alistKeys guest.image_cks →
      alistLookup id (mergeImageCks host guest "host").1.image_cks =
        alistLookup id host.image_cks) := by
  refine ⟨?_, ?_, ?_, ?_⟩
  · intro host guest id hcompat hmemh hmemg
    rw [mergePair_map_eq host guest "guest" hcompat
      (fun hc => absurd hc.1 (by decide))]
    rw [lookup_mergeJointLoop_guest, if_pos (List.mem_filter.mpr ⟨hmemh, by simpa using hmemg⟩)]
    obtain ⟨w, hw⟩ := Option.isSome_iff_exists.mp (alistLookup_isSome_of_mem hmemg)
    rw [hw]
    rfl
  · intro host guest id hcompat hmemh hmemg
    rw [mergePair_map_eq host guest "host" hcompat
      (fun hc => absurd hc.1 (by decide))]
    obtain ⟨v, hv⟩ := Option.isSome_iff_exists.mp (alistLookup_isSome_of_mem hmemh)
    have hnotho : id ∉ (alistKeys host.image_annotations).filter
        (fun i => decide (i ∉ alistKeys guest.image_annotations)) := by
      intro hm
      have := (List.mem_filter.mp hm).2
      simp at this
      exact this hmemg
    have hnotgo : id ∉ (alistKeys guest.image_annotations).filter
        (fun i => decide (i ∉ alistKeys host.image_annotations)) := by
      intro hm
      have := (List.mem_filter.mp hm).2
      simp at this
      exact this hmemh
    have h1 : alistLookup id (copySelfIds SingleImageAnnos.empty
        ((alistKeys host.image_annotations).filter
          (fun i => decide (i ∉ alistKeys guest.image_annotations)))
        host.image_annotations) = some v := by
      rw [lookup_copySelfIds_notMem _ _ _ _ hnotho]
      exact hv
    have h2 : alistLookup id (copyFromSrc guest.image_annotations SingleImageAnnos.empty
        ((alistKeys guest.image_annotations).filter
          (fun i => decide (i ∉ alistKeys host.image_annotations)))
        (copySelfIds SingleImageAnnos.empty
          ((alistKeys host.image_annotations).filter
            (fun i => decide (i ∉ alistKeys guest.image_annotations)))
          host.image_annotations)) = some v := by
      rw [lookup_copyFromSrc, if_neg hnotgo]
      exact h1
    rw [lookup_mergeJointLoop_host _ _ _ _ _ v h2, hv]
  · intro host guest id hmemh hmemg
    rw [mergeCks_map_eq host guest "guest" (fun hc => absurd hc.1 (by decide))]
    rw [lookup_mergeJointLoop_guest, if_pos (List.mem_filter.mpr ⟨hmemh, by simpa using hmemg⟩)]
    obtain ⟨w, hw⟩ := Option.isSome_iff_exists.mp (alistLookup_isSome_of_mem hmemg)
    rw [hw]
    rfl
  · intro host guest id hmemh hmemg
    rw [mergeCks_map_eq host guest "host" (fun hc => absurd hc.1 (by decide))]
    obtain ⟨v, hv⟩ := Option.isSome_iff_exists.mp (alistLookup_isSome_of_mem hmemh)
    have hnotho : id ∉ (alistKeys host.image_cks).filter
        (fun i => decide (i ∉ alistKeys guest.image_cks)) := by
      intro hm
      have := (List.mem_filter.mp hm).2
      simp at this
      exact this hmemg
    have hnotgo : id ∉ (alistKeys guest.image_cks).filter
        (fun i => decide (i ∉ alistKeys host.image_cks)) := by
      intro hm
      have := (List.mem_filter.mp hm).2
      simp at this
      exact this hmemh
    have h1 : alistLookup id (copySelfIds SingleImageCks.empty
        ((alistKeys host.image_cks).filter
          (fun i => decide (i ∉ alistKeys guest.image_cks)))
        host.image_cks) = some v := by
      rw [lookup_copySelfIds_notMem _ _ _ _ hnotho]
      exact hv
    have h2 : alistLookup id (copyFromSrc guest.image_cks SingleImageCks.empty
        ((alistKeys guest.image_cks).filter
          (fun i => decide (i ∉ alistKeys host.image_cks)))
        (copySelfIds SingleImageCks.empty
          ((alistKeys host.image_cks).filter
            (fun i => decide (i ∉ alistKeys guest.image_cks)))
          host.image_cks)) = some v := by
      rw [lookup_copyFromSrc, if_neg hnotgo]
      exact h1
    rw [lookup_mergeJointLoop_host _ _ _ _ _ v h2, hv]

theorem claimC4_witness :
    alistLookup "h1" (mergePairAnnos
        { SingleTaskAnnos.empty with image_annotations := [("h1", SingleImageAnnos.empty)] }
        { SingleTaskAnnos.empty with image_annotations :=
          [("h1", { SingleImageAnnos.empty with img_class_ids := [3] })] }
        "guest").1.image_annotations =
      alistLookup "h1" [("h1", { SingleImageAnnos.empty with img_class_ids := [3] })] ∧
    alistLookup "h1" (mergePairAnnos
        { SingleTaskAnnos.empty with image_annotations := [("h1", SingleImageAnnos.empty)] }
        { SingleTaskAnnos.empty with image_annotations :=
          [("h1", { SingleImageAnnos.empty with img_class_ids := [3] })] }
        "host").1.image_annotations =
      alistLookup "h1" [("h1", SingleImageAnnos.empty)] ∧
    alistLookup "h1" (mergeImageCks
        { MirAnnos.empty with image_cks := [("h1", SingleImageCks.empty)] }
        { MirAnnos.empty with image_cks := [("h1", ⟨[("k", "v")]⟩)] }
        "guest").1.image_cks = alistLookup "h1" [("h1", (⟨[("k", "v")]⟩ : SingleImageCks))] ∧
    alistLookup "h1" (mergeImageCks
        { MirAnnos.empty with image_cks := [("h1", SingleImageCks.empty)] }
        { MirAnnos.empty with image_cks := [("h1", ⟨[("k", "v")]⟩)] }
        "host").1.image_cks = alistLookup "h1" [("h1", SingleImageCks.empty)] :=
  ⟨claimC4.1 _ _ "h1" (by intro hc; exact hc.1 rfl) (by decide) (by decide),
   claimC4.2.1 _ _ "h1" (by intro hc; exact hc.1 rfl) (by decide) (by decide),
   claimC4.2.2.1 _ _ "h1" (by decide) (by decide),
   claimC4.2.2.2 _ _ "h1" (by decide) (by decide)⟩

/-! ## Lemmas for the sandbox migrator -/

theorem alistLookup_eq_none_of_not_mem {κ α : Type} [DecidableEq κ] {k : κ}
    {l : List (κ × α)} (h : k ∉ alistKeys l) : alistLookup k l = none := by
  cases hl : alistLookup k l with
  | none => rfl
  | some v => exact absurd (alistLookup_mem_of_isSome (by rw [hl]; rfl)) h

theorem lookup_filter_key {α : Type} (p : String → Bool) (u : String)
    (l : List (String × α)) (hp : p u = true) :
    alistLookup u (l.filter (fun e => p e.1)) = alistLookup u l := by
  induction l with
  | nil => rfl
  | cons hd tl ih =>
    obtain ⟨k, v⟩ := hd
    by_cases hpk : p k = true
    · rw [List.filter_cons_of_pos (by simpa using hpk)]
      by_cases hk : k = u
      · simp [alistLookup, hk]
      · simp only [alistLookup, if_neg hk]
        exact ih
    · have hk : k ≠ u := fun he => hpk (he ▸ hp)
      rw [List.filter_cons_of_neg (by simpa using hpk)]
      simp only [alistLookup, if_neg hk]
      exact ih

theorem mapFst_filter {α : Type} (p : String → Bool) (l : List (String × α)) :
    (l.filter (fun e => p e.1)).map (·.1) = (l.map (·.1)).filter p := by
  induction l with
  | nil => rfl
  | cons hd tl ih =>
    by_cases hp : p hd.1 = true
    · rw [List.filter_cons_of_pos (by simpa using hp), List.map_cons, List.map_cons,
        List.filter_cons_of_pos (by simpa using hp), ih]
    · rw [List.filter_cons_of_neg (by simpa using hp), List.map_cons,
        List.filter_cons_of_neg (by simpa using hp), ih]

theorem detect_userIds (userIdLen repoIdLen : Nat) (root : SandboxRoot) :
    (detectUsersAndRepos userIdLen repoIdLen root).map (·.1) =
      (alistKeys root.entries).filter (matchFixedDigits userIdLen) := by
  unfold detectUsersAndRepos
  rw [List.map_map]
  exact mapFst_filter (matchFixedDigits userIdLen) root.entries

theorem upgradeOneRepo_keys (funcs : List UpdateFunc)
    (entries : List (String × UserDir)) (userId repoId : String) :
    alistKeys (upgradeOneRepo funcs entries userId repoId).1 = alistKeys entries := by
  cases hu : alistLookup userId entries with
  | none => simp [upgradeOneRepo, hu]
  | some dir =>
    cases hr : alistLookup repoId dir.repos with
    | none => simp [upgradeOneRepo, hu, hr]
    | some repo =>
      cases hf : applyFuncs funcs repo.content with
      | error msg => simp [upgradeOneRepo, hu, hr, hf]
      | ok c1 =>
        simp only [upgradeOneRepo, hu, hr, hf]
        exact alistKeys_insert_of_mem _ (alistLookup_mem_of_isSome (by rw [hu]; rfl))

theorem upgradeOneRepo_lookup_ne (funcs : List UpdateFunc)
    (entries : List (String × UserDir)) (userId repoId : String) (x : String)
    (hx : userId ≠ x) :
    alistLookup x (upgradeOneRepo funcs entries userId repoId).1 =
      alistLookup x entries := by
  cases hu : alistLookup userId entries with
  | none => simp [upgradeOneRepo, hu]
  | some dir =>
    cases hr : alistLookup repoId dir.repos with
    | none => simp [upgradeOneRepo, hu, hr]
    | some repo =>
      cases hf : applyFuncs funcs repo.content with
      | error msg => simp [upgradeOneRepo, hu, hr, hf]
      | ok c1 =>
        simp only [upgradeOneRepo, hu, hr, hf]
        exact alistLookup_insert_ne _ _ hx

theorem upgradeRepoList_keys (funcs : List UpdateFunc) (userId : String)
    (repoIds : List String) (entries : List (String × UserDir)) :
    alistKeys (upgradeRepoList funcs userId repoIds entries).1 = alistKeys entries := by
  induction repoIds generalizing entries with
  | nil => rfl
  | cons r rest ih =>
    rw [upgradeRepoList]
    cases ho : upgradeOneRepo funcs entries userId r with
    | mk e1 err =>
      cases err with
      | some msg =>
        simpa using (ho ▸ upgradeOneRepo_keys funcs entries userId r : alistKeys (e1, some msg).1 = _)
      | none =>
        have h1 : alistKeys e1 = alistKeys entries := by
          simpa using (ho ▸ upgradeOneRepo_keys funcs entries userId r : alistKeys (e1, (none : Option String)).1 = _)
        simpa [h1] using ih e1

theorem upgradeRepoList_lookup_ne (funcs : List UpdateFunc) (userId : String)
    (repoIds : List String) (entries : List (String × UserDir)) (x : String)
    (hx : userId ≠ x) :
    alistLookup x (upgradeRepoList funcs userId repoIds entries).1 =
      alistLookup x entries := by
  induction repoIds generalizing entries with
  | nil => rfl
  | cons r rest ih =>
    rw [upgradeRepoList]
    cases ho : upgradeOneRepo funcs entries userId r with
    | mk e1 err =>
      have h1 : alistLookup x e1 = alistLookup x entries := by
        simpa using (ho ▸ upgradeOneRepo_lookup_ne funcs entries userId r x hx :
          alistLookup x (e1, err).1 = _)
      cases err with
      | some msg => simpa using h1
      | none => simpa [h1] using ih e1

theorem upgradeUserList_keys (funcs : List UpdateFunc)
    (pairs : List (String × List String)) (entries : List (String × UserDir)) :
    alistKeys (upgradeUserList funcs pairs entries).1 = alistKeys entries := by
  induction pairs generalizing entries with
  | nil => rfl
  | cons p rest ih =>
    obtain ⟨userId, repoIds⟩ := p
    rw [upgradeUserList]
    cases ho : upgradeRepoList funcs userId repoIds entries with
    | mk e1 err =>
      have h1 : alistKeys e1 = alistKeys entries := by
        simpa using (ho ▸ upgradeRepoList_keys funcs userId repoIds entries :
          alistKeys (e1, err).1 = _)
      cases err with
      | some msg => simpa using h1
      | none => simpa [h1] using ih e1

theorem upgradeUserList_lookup_notmem (funcs : List UpdateFunc)
    (pairs : List (String × List String)) (entries : List (String × UserDir))
    (x : String) (hx : x ∉ pairs.map (·.1)) :
    alistLookup x (upgradeUserList funcs pairs entries).1 = alistLookup x entries := by
  induction pairs generalizing entries with
  | nil => rfl
  | cons p rest ih =>
    obtain ⟨userId, repoIds⟩ := p
    have hne : userId ≠ x := by
      intro he
      exact hx (by rw [List.map_cons, he]; exact List.mem_cons_self _ _)
    have hrest : x ∉ rest.map (·.1) :=
      fun hm => hx (by rw [List.map_cons]; exact List.mem_cons_of_mem _ hm)
    rw [upgradeUserList]
    cases ho : upgradeRepoList funcs userId repoIds entries with
    | mk e1 err =>
      have h1 : alistLookup x e1 = alistLookup x entries := by
        simpa using (ho ▸ upgradeRepoList_lookup_ne funcs userId repoIds entries x hne :
          alistLookup x (e1, err).1 = _)
      cases err with
      | some msg => simpa using h1
      | none => simpa [h1] using ih e1 hrest

theorem restoreUsers_lookup_notmem (bk : List (String × UserDir))
    (us : List String) (entries : List (String × UserDir)) (u : String)
    (hu : u ∉ us) :
    alistLookup u (restoreUsers bk us entries) = alistLookup u entries := by
  induction us generalizing entries with
  | nil => rfl
  | cons k rest ih =>
    have hne : k ≠ u := fun he => hu (by rw [he]; exact List.mem_cons_self _ _)
    have hrest : u ∉ rest := fun hm => hu (List.mem_cons_of_mem _ hm)
    rw [restoreUsers]
    cases hk : alistLookup k bk with
    | none => exact ih entries hrest
    | some d => rw [ih _ hrest, alistLookup_insert_ne _ _ hne]

theorem restoreUsers_lookup_mem (bk : List (String × UserDir))
    (us : List String) (entries : List (String × UserDir)) (u : String)
    (d : UserDir) (hu : u ∈ us) (hd : alistLookup u bk = some d) :
    alistLookup u (restoreUsers bk us entries) = some d := by
  induction us generalizing entries with
  | nil => exact absurd hu (List.not_mem_nil u)
  | cons k rest ih =>
    rw [restoreUsers]
    by_cases hmem : u ∈ rest
    · cases hk : alistLookup k bk with
      | none => exact ih entries hmem
      | some d2 => exact ih _ hmem
    · have hk : k = u := by
        rcases List.mem_cons.mp hu with h | h
        · exact h.symm
        · exact absurd h hmem
      subst hk
      rw [hd, restoreUsers_lookup_notmem _ _ _ _ hmem, alistLookup_insert_self]

theorem sandboxUpdate_eq (userIdLen repoIdLen : Nat) (root : SandboxRoot)
    (funcs : List UpdateFunc) (hb : root.backup = none) :
    sandboxUpdate userIdLen repoIdLen root funcs =
      (match upgradeUserList funcs
          (detectUsersAndRepos userIdLen repoIdLen root) root.entries with
       | (es1, none) => (⟨es1, none⟩, none)
       | (es1, some msg) =>
         (rollBack userIdLen repoIdLen
           ⟨es1, some (root.entries.filter (fun e => matchFixedDigits userIdLen e.1))⟩,
          some (.upgradeErr msg))) := by
  have hbk : backupStep userIdLen root =
      ({ root with
         backup := some (root.entries.filter (fun e => matchFixedDigits userIdLen e.1)) },
       none) := by
    unfold backupStep
    rw [hb]
    rfl
  unfold sandboxUpdate
  rw [hbk]
  rfl

/-- Claim C7: a sandbox update starting without a stale backup always ends
with the backup directory removed; the only failure it surfaces is the
re-raised upgrade exception; and whenever an upgrade function raises, every
user directory is restored to its pre-migration backed-up state. -/
theorem claimC7 (userIdLen repoIdLen : Nat) (root : SandboxRoot)
    (funcs : List UpdateFunc) (hb : root.backup = none) :
    (sandboxUpdate userIdLen repoIdLen root funcs).1.backup = none
    ∧ ((sandboxUpdate userIdLen repoIdLen root funcs).2 = none ∨
       ∃ msg, (sandboxUpdate userIdLen repoIdLen root funcs).2 =
         some (.upgradeErr msg))
    ∧ (∀ msg, (sandboxUpdate userIdLen repoIdLen root funcs).2 =
        some (.upgradeErr msg) →
        ∀ u, alistLookup u (sandboxUpdate userIdLen repoIdLen root funcs).1.entries =
          alistLookup u root.entries) := by
  rw [sandboxUpdate_eq userIdLen repoIdLen root funcs hb]
  cases hupg : upgradeUserList funcs
      (detectUsersAndRepos userIdLen repoIdLen root) root.entries with
  | mk es1 err =>
    have hkeys : alistKeys es1 = alistKeys root.entries := by
      simpa using (hupg ▸ upgradeUserList_keys funcs
        (detectUsersAndRepos userIdLen repoIdLen root) root.entries :
        alistKeys (es1, err).1 = _)
    cases err with
    | none =>
      refine ⟨rfl, Or.inl rfl, ?_⟩
      intro msg hmsg
      exact absurd hmsg (by simp)
    | some msg =>
      refine ⟨rfl, Or.inr ⟨msg, rfl⟩, ?_⟩
      intro msg2 _ u
      show alistLookup u (rollBack userIdLen repoIdLen
        ⟨es1, some (root.entries.filter (fun e => matchFixedDigits userIdLen e.1))⟩).entries = _
      have hroll : (rollBack userIdLen repoIdLen
          (⟨es1, some (root.entries.filter (fun e => matchFixedDigits userIdLen e.1))⟩ :
            SandboxRoot)).entries =
          restoreUsers (root.entries.filter (fun e => matchFixedDigits userIdLen e.1))
            ((detectUsersAndRepos userIdLen repoIdLen
              (⟨es1, some (root.entries.filter (fun e => matchFixedDigits userIdLen e.1))⟩ :
                SandboxRoot)).map (·.1)) es1 := rfl
      rw [hroll]
      have husers : (detectUsersAndRepos userIdLen repoIdLen
          (⟨es1, some (root.entries.filter (fun e => matchFixedDigits userIdLen e.1))⟩ :
            SandboxRoot)).map (·.1) =
          (alistKeys root.entries).filter (matchFixedDigits userIdLen) := by
        rw [detect_userIds]
        show (alistKeys es1).filter _ = _
        rw [hkeys]
      rw [husers]
      by_cases hu : u ∈ (alistKeys root.entries).filter (matchFixedDigits userIdLen)
      · have hpat : matchFixedDigits userIdLen u = true := by
          simpa using (List.mem_filter.mp hu).2
        have hmem : u ∈ alistKeys root.entries := (List.mem_filter.mp hu).1
        obtain ⟨d, hd⟩ := Option.isSome_iff_exists.mp (alistLookup_isSome_of_mem hmem)
        have hbd : alistLookup u
            (root.entries.filter (fun e => matchFixedDigits userIdLen e.1)) = some d := by
          rw [lookup_filter_key _ _ _ hpat]
          exact hd
        rw [restoreUsers_lookup_mem _ _ _ _ d hu hbd, hd]
      · rw [restoreUsers_lookup_notmem _ _ _ _ hu]
        by_cases hpat : matchFixedDigits userIdLen u = true
        · have hmem : u ∉ alistKeys root.entries := by
            intro hm
            exact hu (List.mem_filter.mpr ⟨hm, by simpa using hpat⟩)
          rw [alistLookup_eq_none_of_not_mem (fun hm => hmem (hkeys ▸ hm)),
            alistLookup_eq_none_of_not_mem hmem]
        · have hnp : u ∉ (detectUsersAndRepos userIdLen repoIdLen root).map (·.1) := by
            rw [detect_userIds]
            intro hm
            exact hpat (by simpa using (List.mem_filter.mp hm).2)
          have := upgradeUserList_lookup_notmem funcs
            (detectUsersAndRepos userIdLen repoIdLen root) root.entries u hnp
          rw [hupg] at this
          simpa using this

theorem claimC7_witness :
    (sandboxUpdate 4 6 rootC7 funcsC7).1.backup = none
    ∧ ((sandboxUpdate 4 6 rootC7 funcsC7).2 = none ∨
       ∃ msg, (sandboxUpdate 4 6 rootC7 funcsC7).2 = some (.upgradeErr msg))
    ∧ (∀ msg, (sandboxUpdate 4 6 rootC7 funcsC7).2 = some (.upgradeErr msg) →
        ∀ u, alistLookup u (sandboxUpdate 4 6 rootC7 funcsC7).1.entries =
          alistLookup u rootC7.entries) :=
  claimC7 4 6 rootC7 funcsC7 rfl

/-! ## Lemmas for claim C1: the VOC object step -/

theorem alistKeys_incr {κ : Type} [DecidableEq κ] (k : κ) (l : List (κ × Nat)) :
    alistKeys (alistIncr k l) = alistKeys l := by
  induction l with
  | nil => rfl
  | cons hd tl ih =>
    obtain ⟨k', v⟩ := hd
    by_cases h : k' = k
    · simp only [alistIncr, if_pos h, alistKeys_cons]
    · simp only [alistIncr, if_neg h, alistKeys_cons, ih]

theorem mem_keys_insert_of_mem {κ α : Type} [DecidableEq κ] {k k' : κ} (v : α)
    {l : List (κ × α)} (h : k ∈ alistKeys l) :
    k ∈ alistKeys (alistInsert k' v l) := by
  induction l with
  | nil => simp [alistKeys] at h
  | cons hd tl ih =>
    obtain ⟨k2, v2⟩ := hd
    by_cases h2 : k2 = k'
    · subst h2
      rw [alistKeys_cons] at h
      rcases List.mem_cons.mp h with h | h
      · simp [alistInsert, alistKeys, h]
      · simp only [alistInsert, if_pos rfl, alistKeys_cons]
        exact List.mem_cons.mpr (Or.inr h)
    · rw [alistKeys_cons] at h
      rcases List.mem_cons.mp h with h | h
      · simp [alistInsert, alistKeys, h2, h]
      · simp only [alistInsert, if_neg h2, alistKeys_cons]
        exact List.mem_cons.mpr (Or.inr (ih h))

theorem mem_keys_insert_self {κ α : Type} [DecidableEq κ] (k : κ) (v : α)
    (l : List (κ × α)) : k ∈ alistKeys (alistInsert k v l) :=
  alistLookup_mem_of_isSome (by rw [alistLookup_insert_self]; rfl)

theorem objectDictToAnno_ok (o : VocObject) (cid : Int) (h : o.bndbox.isSome) :
    ∃ a, objectDictToAnno o cid = .ok a := by
  cases hb : o.bndbox with
  | none => rw [hb] at h; cases h
  | some b => exact ⟨_, by unfold objectDictToAnno; rw [hb]⟩

/-- Properties of one successful object step under a non-ADD strategy: the
registry is untouched, accumulated keys only grow, an unresolvable name's
canonical form is recorded, and a resolvable name leaves the key set
unchanged. -/
theorem vocObjStep_props (o : VocObject) (st st1 : VocObjState)
    (h : vocObjStep false o st = .ok st1) :
    st1.mgr = st.mgr ∧
    (∀ k, k ∈ alistKeys st.accu → k ∈ alistKeys st1.accu) ∧
    ((st.mgr.idAndMainNameForName o.name).1 < 0 →
      (st.mgr.idAndMainNameForName o.name).2 ∈ alistKeys st1.accu) ∧
    (¬ (st.mgr.idAndMainNameForName o.name).1 < 0 →
      alistKeys st1.accu = alistKeys st.accu) := by
  by_cases hmem : (st.mgr.idAndMainNameForName o.name).2 ∈ alistKeys st.accu
  · simp only [vocObjStep, if_pos hmem] at h
    by_cases hpos : 0 ≤ (st.mgr.idAndMainNameForName o.name).1
    · rw [if_pos hpos] at h
      rcases objectDictToAnno_ok o _ (by
        cases hb : o.bndbox with
        | none =>
          exfalso
          simp only [objectDictToAnno, hb] at h
          by_cases hpoly : o.polygon = true <;> simp [hpoly] at h
        | some b => rfl) with ⟨a, ha⟩
      rw [ha] at h
      cases h
      refine ⟨rfl, ?_, ?_, ?_⟩
      · intro k hk
        simpa [alistKeys_incr] using hk
      · intro hneg
        simpa [alistKeys_incr] using hmem
      · intro _
        simp [alistKeys_incr]
    · rw [if_neg hpos] at h
      cases h
      refine ⟨rfl, ?_, ?_, ?_⟩
      · intro k hk
        simpa [alistKeys_incr] using hk
      · intro hneg
        simpa [alistKeys_incr] using hmem
      · intro _
        simp [alistKeys_incr]
  · by_cases hneg : (st.mgr.idAndMainNameForName o.name).1 < 0
    · simp only [vocObjStep, if_neg hmem, if_pos hneg] at h
      first
      | rw [if_neg not_false] at h
      | rw [if_neg (show ¬ (false = true) by decide)] at h
      rw [if_neg (not_le.mpr hneg)] at h
      cases h
      refine ⟨rfl, ?_, ?_, ?_⟩
      · intro k hk
        exact mem_keys_insert_of_mem _ hk
      · intro _
        exact mem_keys_insert_self _ _ _
      · intro hc
        exact absurd hneg hc
    · simp only [vocObjStep, if_neg hmem, if_neg hneg] at h
      rw [if_pos (not_lt.mp hneg)] at h
      rcases objectDictToAnno_ok o _ (by
        cases hb : o.bndbox with
        | none =>
          exfalso
          simp only [objectDictToAnno, hb] at h
          by_cases hpoly : o.polygon = true <;> simp [hpoly] at h
        | some b => rfl) with ⟨a, ha⟩
      rw [ha] at h
      cases h
      exact ⟨rfl, fun k hk => hk, fun hc => absurd hc hneg, fun _ => rfl⟩

/-- A well-formed object (carrying a `bndbox`) never makes the step fail
under a non-ADD strategy. -/
theorem vocObjStep_ok (o : VocObject) (st : VocObjState)
    (hwf : o.bndbox.isSome) : ∃ st1, vocObjStep false o st = .ok st1 := by
  obtain ⟨b, hb⟩ := Option.isSome_iff_exists.mp hwf
  by_cases hmem : (st.mgr.idAndMainNameForName o.name).2 ∈ alistKeys st.accu
  · simp only [vocObjStep, if_pos hmem]
    by_cases hpos : 0 ≤ (st.mgr.idAndMainNameForName o.name).1
    · rw [if_pos hpos]
      obtain ⟨a, ha⟩ := objectDictToAnno_ok o _ hwf
      rw [ha]
      exact ⟨_, rfl⟩
    · rw [if_neg hpos]
      exact ⟨_, rfl⟩
  · by_cases hneg : (st.mgr.idAndMainNameForName o.name).1 < 0
    · simp only [vocObjStep, if_neg hmem, if_pos hneg]
      first
      | rw [if_neg not_false]
      | rw [if_neg (show ¬ (false = true) by decide)]
      rw [if_neg (not_le.mpr hneg)]
      exact ⟨_, rfl⟩
    · simp only [vocObjStep, if_neg hmem, if_neg hneg]
      rw [if_pos (not_lt.mp hneg)]
      obtain ⟨a, ha⟩ := objectDictToAnno_ok o _ hwf
      rw [ha]
      exact ⟨_, rfl⟩

/-! ## Lemmas for claim C1: the VOC loops -/

theorem processVocObjects_props (objs : List VocObject) (st st2 : VocObjState)
    (h : processVocObjects false objs st = .ok st2) :
    st2.mgr = st.mgr ∧
    (∀ k, k ∈ alistKeys st.accu → k ∈ alistKeys st2.accu) ∧
    (∀ o, o ∈ objs → (st.mgr.idAndMainNameForName o.name).1 < 0 →
      (st.mgr.idAndMainNameForName o.name).2 ∈ alistKeys st2.accu) ∧
    (anyUnknownName st.mgr objs = false → alistKeys st2.accu = alistKeys st.accu) := by
  induction objs generalizing st with
  | nil =>
    rw [processVocObjects] at h
    cases h
    exact ⟨rfl, fun k hk => hk, fun o ho => absurd ho (List.not_mem_nil o),
      fun _ => rfl⟩
  | cons o rest ih =>
    rw [processVocObjects] at h
    cases hstep : vocObjStep false o st with
    | error e => rw [hstep] at h; cases h
    | ok st1 =>
      rw [hstep] at h
      obtain ⟨hmgr1, hmono1, hunk1, hknown1⟩ := vocObjStep_props o st st1 hstep
      obtain ⟨hmgr2, hmono2, hunk2, hknown2⟩ := ih st1 h
      rw [hmgr1] at hmgr2 hunk2 hknown2
      refine ⟨hmgr2, fun k hk => hmono2 k (hmono1 k hk), ?_, ?_⟩
      · intro o2 ho2 hneg
        rcases List.mem_cons.mp ho2 with he | hm
        · subst he
          exact hmono2 _ (hunk1 hneg)
        · exact hunk2 o2 hm hneg
      · intro hall
        rw [anyUnknownName, List.any_cons, Bool.or_eq_false_iff] at hall
        obtain ⟨h1, h2⟩ := hall
        have hknown : ¬ (st.mgr.idAndMainNameForName o.name).1 < 0 := by
          simpa using h1
        rw [hknown2 h2, hknown1 hknown]

theorem processVocObjects_ok (objs : List VocObject) (st : VocObjState)
    (hwf : allHaveBndbox objs = true) :
    ∃ st2, processVocObjects false objs st = .ok st2 := by
  induction objs generalizing st with
  | nil => exact ⟨st, rfl⟩
  | cons o rest ih =>
    rw [allHaveBndbox, List.all_cons, Bool.and_eq_true] at hwf
    obtain ⟨st1, hstep⟩ := vocObjStep_ok o st hwf.1
    obtain ⟨st2, hrest⟩ := ih st1 hwf.2
    exact ⟨st2, by rw [processVocObjects, hstep]; exact hrest⟩

/-- The objects a single asset contributes. -/
def assetObjects (xmlFiles : List (String × VocXml)) (mainFileName : String) :
    List VocObject :=
  match alistLookup mainFileName xmlFiles with
  | some xml => xml.objects
  | none => []

theorem vocAssetStep_props (xmlFiles : List (String × VocXml))
    (assetHash mainFileName : String) (st st1 : VocDirState)
    (taskIds taskIds1 : List Int)
    (h : vocAssetStep false xmlFiles assetHash mainFileName st taskIds =
      .ok (st1, taskIds1)) :
    st1.mgr = st.mgr ∧
    (∀ k, k ∈ alistKeys st.accu → k ∈ alistKeys st1.accu) ∧
    (∀ o, o ∈ assetObjects xmlFiles mainFileName →
      (st.mgr.idAndMainNameForName o.name).1 < 0 →
      (st.mgr.idAndMainNameForName o.name).2 ∈ alistKeys st1.accu) ∧
    (anyUnknownName st.mgr (assetObjects xmlFiles mainFileName) = false →
      alistKeys st1.accu = alistKeys st.accu) := by
  cases hxml : alistLookup mainFileName xmlFiles with
  | none =>
    rw [vocAssetStep, hxml] at h
    cases h
    exact ⟨rfl, fun k hk => hk,
      fun o ho => by rw [assetObjects, hxml] at ho; exact absurd ho (List.not_mem_nil o),
      fun _ => rfl⟩
  | some xml =>
    rw [vocAssetStep, hxml] at h
    simp only at h
    cases hrun : processVocObjects false xml.objects
        { mgr := st.mgr, accu := st.accu, annoIdx := 0,
          boxes := [], imgClassIds := [] } with
    | error e => rw [hrun] at h; cases h
    | ok ost =>
      rw [hrun] at h
      cases h
      obtain ⟨hmgr, hmono, hunk, hknown⟩ := processVocObjects_props _ _ _ hrun
      refine ⟨hmgr, hmono, ?_, ?_⟩
      · intro o ho hneg
        rw [assetObjects, hxml] at ho
        exact hunk o ho hneg
      · intro hall
        rw [assetObjects, hxml] at hall
        exact hknown hall

theorem vocAssetStep_ok (xmlFiles : List (String × VocXml))
    (assetHash mainFileName : String) (st : VocDirState) (taskIds : List Int)
    (hwf : allHaveBndbox (assetObjects xmlFiles mainFileName) = true) :
    ∃ r, vocAssetStep false xmlFiles assetHash mainFileName st taskIds = .ok r := by
  cases hxml : alistLookup mainFileName xmlFiles with
  | none => exact ⟨(st, taskIds), by rw [vocAssetStep, hxml]⟩
  | some xml =>
    rw [assetObjects, hxml] at hwf
    obtain ⟨ost, hrun⟩ := processVocObjects_ok xml.objects
      { mgr := st.mgr, accu := st.accu, annoIdx := 0, boxes := [], imgClassIds := [] }
      hwf
    rw [vocAssetStep, hxml]
    simp only
    rw [hrun]
    exact ⟨_, rfl⟩

theorem vocObjectsOfFiles_cons (xmlFiles : List (String × VocXml))
    (assetHash mainFileName : String) (rest : List (String × String)) :
    vocObjectsOfFiles xmlFiles ((assetHash, mainFileName) :: rest) =
      assetObjects xmlFiles mainFileName ++ vocObjectsOfFiles xmlFiles rest := rfl

theorem processVocAssets_props (xmlFiles : List (String × VocXml))
    (assets : List (String × String)) (st st2 : VocDirState)
    (taskIds taskIds2 : List Int)
    (h : processVocAssets false xmlFiles assets st taskIds = .ok (st2, taskIds2)) :
    st2.mgr = st.mgr ∧
    (∀ k, k ∈ alistKeys st.accu → k ∈ alistKeys st2.accu) ∧
    (∀ o, o ∈ vocObjectsOfFiles xmlFiles assets →
      (st.mgr.idAndMainNameForName o.name).1 < 0 →
      (st.mgr.idAndMainNameForName o.name).2 ∈ alistKeys st2.accu) ∧
    (anyUnknownName st.mgr (vocObjectsOfFiles xmlFiles assets) = false →
      alistKeys st2.accu = alistKeys st.accu) := by
  induction assets generalizing st taskIds with
  | nil =>
    rw [processVocAssets] at h
    cases h
    exact ⟨rfl, fun k hk => hk,
      fun o ho => absurd ho (List.not_mem_nil o), fun _ => rfl⟩
  | cons a rest ih =>
    obtain ⟨assetHash, mainFileName⟩ := a
    rw [processVocAssets] at h
    cases hstep : vocAssetStep false xmlFiles assetHash mainFileName st taskIds with
    | error e => rw [hstep] at h; cases h
    | ok r =>
      obtain ⟨st1, taskIds1⟩ := r
      rw [hstep] at h
      obtain ⟨hmgr1, hmono1, hunk1, hknown1⟩ :=
        vocAssetStep_props _ _ _ _ _ _ _ hstep
      obtain ⟨hmgr2, hmono2, hunk2, hknown2⟩ := ih st1 taskIds1 h
      rw [hmgr1] at hmgr2 hunk2 hknown2
      refine ⟨hmgr2, fun k hk => hmono2 k (hmono1 k hk), ?_, ?_⟩
      · intro o ho hneg
        rw [vocObjectsOfFiles_cons] at ho
        rcases List.mem_append.mp ho with hm | hm
        · exact hmono2 _ (hunk1 o hm hneg)
        · exact hunk2 o hm hneg
      · intro hall
        rw [vocObjectsOfFiles_cons, anyUnknownName, List.any_append,
          Bool.or_eq_false_iff] at hall
        obtain ⟨h1, h2⟩ := hall
        rw [hknown2 h2, hknown1 h1]

theorem processVocAssets_ok (xmlFiles : List (String × VocXml))
    (assets : List (String × String)) (st : VocDirState) (taskIds : List Int)
    (hwf : allHaveBndbox (vocObjectsOfFiles xmlFiles assets) = true) :
    ∃ r, processVocAssets false xmlFiles assets st taskIds = .ok r := by
  induction assets generalizing st taskIds with
  | nil => exact ⟨(st, taskIds), rfl⟩
  | cons a rest ih =>
    obtain ⟨assetHash, mainFileName⟩ := a
    rw [vocObjectsOfFiles_cons, allHaveBndbox, List.all_append,
      Bool.and_eq_true] at hwf
    obtain ⟨r1, hstep⟩ := vocAssetStep_ok xmlFiles assetHash mainFileName st taskIds hwf.1
    obtain ⟨st1, taskIds1⟩ := r1
    obtain ⟨r2, hrest⟩ := ih st1 taskIds1 hwf.2
    exact ⟨r2, by rw [processVocAssets, hstep]; exact hrest⟩

/-! ## Lemmas for claim C1: directory level and the import run -/

theorem ne_nil_of_mem_keys {κ α : Type} {k : κ} {l : List (κ × α)}
    (h : k ∈ alistKeys l) : l ≠ [] := by
  intro he
  subst he
  simp [alistKeys] at h

theorem importAnnoMeta_none (d : AnnoDir) (mgr : UserLabels)
    (task : SingleTaskAnnos) (h : d.metaYaml = none) :
    importAnnoMeta d mgr task = .ok task := by
  unfold importAnnoMeta
  rw [h]

theorem importAnnosFromDir_voc (assets : List (String × String)) (d : AnnoDir)
    (accu : List (String × Nat)) (mgr : UserLabels)
    (imageCks : List (String × SingleImageCks)) (task : SingleTaskAnnos)
    (annoType : AnnoType)
    (hseg : segOverride d = false)
    (hty : annoType = .atDetBox ∨ annoType = .atSegPolygon)
    (hwf : allHaveBndbox (vocObjectsOf d assets) = true) :
    ∃ cks2 task2 accu2,
      importAnnosFromDir assets d .stop accu mgr imageCks task annoType =
        .ok (cks2, task2, accu2, mgr) ∧
      (∀ k, k ∈ alistKeys accu → k ∈ alistKeys accu2) ∧
      (∀ o, o ∈ vocObjectsOf d assets → (mgr.idAndMainNameForName o.name).1 < 0 →
        (mgr.idAndMainNameForName o.name).2 ∈ alistKeys accu2) ∧
      (anyUnknownName mgr (vocObjectsOf d assets) = false →
        alistKeys accu2 = alistKeys accu) := by
  have hcond : ¬ ((d.hasSegmentationClass && d.labelmap.isSome) = true) := by
    rw [segOverride] at hseg
    simp [hseg]
  obtain ⟨r, hrun⟩ := processVocAssets_ok d.xmlFiles assets
    { imageCks := imageCks, task := { task with type := annoType },
      accu := accu, mgr := mgr } [] hwf
  obtain ⟨st2, taskIds2⟩ := r
  obtain ⟨hmgr, hmono, hunk, hknown⟩ := processVocAssets_props _ _ _ _ _ _ hrun
  refine ⟨st2.imageCks, { st2.task with task_class_ids := taskIds2 }, st2.accu,
    ?_, hmono, hunk, hknown⟩
  rcases hty with hty | hty <;>
    (subst hty
     simp only [importAnnosFromDir, if_neg hcond]
     rw [show (decide (UTStrategy.stop = UTStrategy.add)) = false from rfl]
     rw [hrun]
     show Except.ok (st2.imageCks, { st2.task with task_class_ids := taskIds2 },
       st2.accu, st2.mgr) = _
     rw [hmgr])

/-- Claim C1, amended: under STOP, `import_annotations` fails with
`RC_CMD_UNKNOWN_TYPES` exactly when the accumulated name map is non-empty
after processing.  For VOC-XML (box/polygon) directories — no
segmentation-mask auto-detect override, every object carrying a `bndbox`,
and no `meta.yaml` — that is exactly when some encountered class name does
not resolve in the registry: the call fails when an unresolvable name was
encountered and succeeds when every name resolves.  (For segmentation-mask
directories the original claim fails, since every labelmap name, known or
not, is recorded: see the counterexample.) -/
theorem claimC1_amended (env : String → UserLabels) (lbl : String)
    (predDir gtDir : Option AnnoDir) (assets : List (String × String))
    (annoType : AnnoType) (mirAnnos : MirAnnos)
    (hty : annoType = .atDetBox ∨ annoType = .atSegPolygon)
    (hpred : ∀ d, predDir = some d → segOverride d = false ∧
      allHaveBndbox (vocObjectsOf d assets) = true ∧ d.metaYaml = none)
    (hgt : ∀ d, gtDir = some d → segOverride d = false ∧
      allHaveBndbox (vocObjectsOf d assets) = true) :
    ((optDirUnknown (env lbl) predDir assets ||
        optDirUnknown (env lbl) gtDir assets) = true →
      ∃ names, names ≠ [] ∧
        importAnnotations env lbl predDir gtDir assets .stop annoType mirAnnos =
          .error (.unknownTypes names))
    ∧ ((optDirUnknown (env lbl) predDir assets ||
        optDirUnknown (env lbl) gtDir assets) = false →
      ∃ res, importAnnotations env lbl predDir gtDir assets .stop annoType mirAnnos =
        .ok res) := by
  have main : ∃ accu2 annos2,
      importAnnotations env lbl predDir gtDir assets .stop annoType mirAnnos =
        (if UTStrategy.stop = UTStrategy.stop ∧ ¬ accu2.isEmpty = true
         then .error (.unknownTypes (alistKeys accu2))
         else .ok (accu2, annos2)) ∧
      ((optDirUnknown (env lbl) predDir assets ||
          optDirUnknown (env lbl) gtDir assets) = true → accu2 ≠ []) ∧
      ((optDirUnknown (env lbl) predDir assets ||
          optDirUnknown (env lbl) gtDir assets) = false → accu2 = []) := by
    cases predDir with
    | none =>
      cases gtDir with
      | none =>
        refine ⟨[], mirAnnos, rfl, ?_, fun _ => rfl⟩
        intro hc
        simp [optDirUnknown] at hc
      | some dg =>
        obtain ⟨hseg, hwf⟩ := hgt dg rfl
        obtain ⟨cks2, task2, accu2, hok, hmono, hunk, hknown⟩ :=
          importAnnosFromDir_voc assets dg [] (env lbl) mirAnnos.image_cks
            mirAnnos.ground_truth annoType hseg hty hwf
        have heq : ∃ annos2,
            importAnnotations env lbl none (some dg) assets .stop annoType mirAnnos =
              (if UTStrategy.stop = UTStrategy.stop ∧ ¬ accu2.isEmpty = true
               then .error (.unknownTypes (alistKeys accu2))
               else .ok (accu2, annos2)) :=
          ⟨_, by simp only [importAnnotations, hok]; rfl⟩
        obtain ⟨annos2, heq⟩ := heq
        refine ⟨accu2, annos2, heq, ?_, ?_⟩
        · intro hc
          simp only [optDirUnknown, Bool.false_or] at hc
          rw [anyUnknownName, List.any_eq_true] at hc
          obtain ⟨o, ho, hp⟩ := hc
          exact ne_nil_of_mem_keys (hunk o ho (of_decide_eq_true hp))
        · intro hc
          simp only [optDirUnknown, Bool.false_or] at hc
          have := hknown hc
          simp only [alistKeys] at this
          exact List.map_eq_nil_iff.mp this
    | some dp =>
      obtain ⟨hsegp, hwfp, hmetap⟩ := hpred dp rfl
      obtain ⟨cks2, task2, accu1, hokp, hmonop, hunkp, hknownp⟩ :=
        importAnnosFromDir_voc assets dp [] (env lbl) mirAnnos.image_cks
          mirAnnos.prediction annoType hsegp hty hwfp
      have hmeta := importAnnoMeta_none dp (env lbl) task2 hmetap
      cases gtDir with
      | none =>
        have heq : ∃ annos2,
            importAnnotations env lbl (some dp) none assets .stop annoType mirAnnos =
              (if UTStrategy.stop = UTStrategy.stop ∧ ¬ accu1.isEmpty = true
               then .error (.unknownTypes (alistKeys accu1))
               else .ok (accu1, annos2)) :=
          ⟨_, by simp only [importAnnotations, hokp, hmeta]; rfl⟩
        obtain ⟨annos2, heq⟩ := heq
        refine ⟨accu1, annos2, heq, ?_, ?_⟩
        · intro hc
          simp only [optDirUnknown, Bool.or_false] at hc
          rw [anyUnknownName, List.any_eq_true] at hc
          obtain ⟨o, ho, hp⟩ := hc
          exact ne_nil_of_mem_keys (hunkp o ho (of_decide_eq_true hp))
        · intro hc
          simp only [optDirUnknown, Bool.or_false] at hc
          have := hknownp hc
          simp only [alistKeys] at this
          exact List.map_eq_nil_iff.mp this
      | some dg =>
        obtain ⟨hsegg, hwfg⟩ := hgt dg rfl
        obtain ⟨cks3, task3, accu2, hokg, hmonog, hunkg, hknowng⟩ :=
          importAnnosFromDir_voc assets dg accu1 (env lbl) cks2
            mirAnnos.ground_truth annoType hsegg hty hwfg
        have heq : ∃ annos2,
            importAnnotations env lbl (some dp) (some dg) assets .stop annoType
                mirAnnos =
              (if UTStrategy.stop = UTStrategy.stop ∧ ¬ accu2.isEmpty = true
               then .error (.unknownTypes (alistKeys accu2))
               else .ok (accu2, annos2)) :=
          ⟨_, by simp only [importAnnotations, hokp, hmeta, hokg]; rfl⟩
        obtain ⟨annos2, heq⟩ := heq
        refine ⟨accu2, annos2, heq, ?_, ?_⟩
        · intro hc
          rcases Bool.or_eq_true_iff.mp hc with hc | hc
          · simp only [optDirUnknown] at hc
            rw [anyUnknownName, List.any_eq_true] at hc
            obtain ⟨o, ho, hp⟩ := hc
            exact ne_nil_of_mem_keys
              (hmonog _ (hunkp o ho (of_decide_eq_true hp)))
          · simp only [optDirUnknown] at hc
            rw [anyUnknownName, List.any_eq_true] at hc
            obtain ⟨o, ho, hp⟩ := hc
            exact ne_nil_of_mem_keys (hunkg o ho (of_decide_eq_true hp))
        · intro hc
          rw [Bool.or_eq_false_iff] at hc
          simp only [optDirUnknown] at hc
          have h2 := hknowng hc.2
          have h1 := hknownp hc.1
          rw [h1] at h2
          simp only [alistKeys] at h2
          exact List.map_eq_nil_iff.mp h2
  obtain ⟨accu2, annos2, hrun, hne, hnil⟩ := main
  constructor
  · intro hc
    have hacc := hne hc
    refine ⟨alistKeys accu2, ?_, ?_⟩
    · intro hk
      exact hacc (List.map_eq_nil_iff.mp hk)
    · rw [hrun, if_pos ⟨rfl, by simpa using hacc⟩]
  · intro hc
    have hacc := hnil hc
    subst hacc
    exact ⟨([], annos2), by rw [hrun]; rfl⟩

/-- Claim C1, counterexample to the original statement: a STOP import of a
segmentation-mask ground-truth directory whose labelmap names only the
registered class `cat` (id 0, non-negative) nevertheless fails with
`RC_CMD_UNKNOWN_TYPES ["cat"]`, because the seg-mask importer records every
labelmap name — known or not — in the accumulated name map. -/
theorem claimC1_counterexample :
    importAnnotations envC1 "labels.yaml" none (some segDirC1) [] .stop .atDetBox
        MirAnnos.empty = .error (.unknownTypes ["cat"]) ∧
    0 ≤ ((envC1 "labels.yaml").idAndMainNameForName "cat").1 := by
  constructor
  · decide
  · decide

theorem claimC1_amended_witness :
    ∃ names, names ≠ [] ∧
      importAnnotations envEmptyReg "labels.yaml" (some vocDirC1) none assetsC1
        .stop .atDetBox MirAnnos.empty = .error (.unknownTypes names) :=
  (claimC1_amended envEmptyReg "labels.yaml" (some vocDirC1) none assetsC1
    .atDetBox MirAnnos.empty (Or.inl rfl)
    (fun d hd => by cases hd; exact ⟨rfl, rfl, rfl⟩)
    (fun d hd => by cases hd)).1 (by decide)
